import Mathlib

/-!
Verification development for the maze-game repository
(source: "Maze generator project.cpp").

The embedding models:
* the cell constants `WALL`, `PATH`, `START`, `END` as the inductive `Cell`
  (`Cell.wall`, `Cell.path`, `Cell.start`, `Cell.finish`);
* the dynamically allocated `char**` grid together with the globals
  `g_height`/`g_width` as the structure `Grid` (a total function from
  integer coordinates to cells; only in-bounds cells are ever read or
  written by the embedded operations);
* `carve_path` as a fuel-indexed recursion over an explicit shuffle
  oracle (`random_shuffle` is modelled by quantifying over every oracle
  that returns a permutation of the four direction vectors);
* `setup_maze` (the part after input validation: odd-size adjustment,
  all-wall allocation, carving, start/end marking);
* the player globals `p_r`, `p_c`, `p_r_old`, `p_c_old`,
  `g_timer_started`, `g_start_time`, `g_final_time_seconds` as the
  structure `GameState`, with the steady clock modelled by an explicit
  rational "now" argument;
* `handle_input` and the per-iteration body of `game_loop` (including
  the reset and win handling and the loop exits on quit/win).
-/

/-- The four cell kinds stored in the grid: `WALL` (char 178), `PATH` (' '),
`START` ('S'), `END` ('E'). `END` is rendered as `Cell.finish`. -/
inductive Cell where
  | wall : Cell
  | path : Cell
  | start : Cell
  | finish : Cell
deriving DecidableEq, Repr

/-- A position is a (row, column) pair of machine integers. -/
abbrev Pos := ℤ × ℤ

/-- The maze grid: the globals `g_height`, `g_width` plus the `char**`
contents.  The content function is total; all reads and writes performed
by the embedded code stay inside `[0, height) × [0, width)`. -/
structure Grid where
  height : ℤ
  width : ℤ
  cell : Pos → Cell

/-- Writing one cell of the grid (`maze[r][c] = v`). -/
def Grid.set (g : Grid) (p : Pos) (v : Cell) : Grid :=
  { g with cell := fun q => if q = p then v else g.cell q }

/-- The four two-step carving directions, in the order they appear in the
source: `{-2, 0}, {+2, 0}, {0, -2}, {0, +2}`. -/
def dirList : List Pos := [(-2, 0), (2, 0), (0, -2), (0, 2)]

/-- The boundary check done inside `carve_path`:
`nr > 0 && nr < g_height - 1 && nc > 0 && nc < g_width - 1`. -/
def interiorPos (g : Grid) (p : Pos) : Prop :=
  0 < p.1 ∧ p.1 < g.height - 1 ∧ 0 < p.2 ∧ p.2 < g.width - 1

instance (g : Grid) (p : Pos) : Decidable (interiorPos g p) := by
  unfold interiorPos; infer_instance

/-- The bounds check done inside `handle_input`:
`next_r >= 0 && next_r < g_height && next_c >= 0 && next_c < g_width`. -/
def inBoundsPos (g : Grid) (p : Pos) : Prop :=
  0 ≤ p.1 ∧ p.1 < g.height ∧ 0 ≤ p.2 ∧ p.2 < g.width

instance (g : Grid) (p : Pos) : Decidable (inBoundsPos g p) := by
  unfold inBoundsPos; infer_instance

/-- A shuffle oracle: the outcome of `random_shuffle(directions)` for a call
of `carve_path` made with the given grid state and current cell.  Distinct
dynamic calls always carry distinct grid states (each call permanently opens
a new cell first), so quantifying over all oracles covers every possible
sequence of per-call shuffle outcomes. -/
def ShuffleOK (shuffle : Grid → Pos → List Pos) : Prop :=
  ∀ g p, List.Perm (shuffle g p) dirList

/-- The body of `carve_path` after the initial `maze[r][c] = PATH`
statement: iterate over the (already shuffled) direction list `ds` held by
the current call.  For a direction whose two-step neighbour `n` is interior
and still `WALL`, the connecting cell midway is opened and the recursive
`carve_path(maze, nr, nc)` call is inlined (its initial `maze[nr][nc] = PATH`
write is fused into `g2`, and the shuffled list of the nested call is
obtained from the oracle).  The natural-number `fuel` only forces structural
termination; `carve_fuel_enough` below shows a generously sized fuel is
never exhausted. -/
def carveAux (shuffle : Grid → Pos → List Pos) :
    ℕ → Grid → Pos → List Pos → Grid
  | 0, g, _, _ => g
  | _ + 1, g, _, [] => g
  | fuel + 1, g, p, d :: rest =>
    let n : Pos := (p.1 + d.1, p.2 + d.2)
    if interiorPos g n ∧ g.cell n = Cell.wall then
      let g2 := (g.set (p.1 + d.1 / 2, p.2 + d.2 / 2) Cell.path).set n Cell.path
      let g3 := carveAux shuffle fuel g2 n (shuffle g2 n)
      carveAux shuffle fuel g3 p rest
    else
      carveAux shuffle fuel g p rest

/-- `carve_path(maze, r, c)`: mark the current cell `PATH`, shuffle the
direction vector, and explore it (the recursion lives in `carveAux`). -/
def carve_path (shuffle : Grid → Pos → List Pos) (fuel : ℕ)
    (g : Grid) (p : Pos) : Grid :=
  let g1 := g.set p Cell.path
  carveAux shuffle fuel g1 p (shuffle g1 p)

/-- The odd-size adjustment in `setup_maze`:
`g_height = size % 2 == 0 ? size + 1 : size`. -/
def adjSize (size : ℤ) : ℤ :=
  if size % 2 = 0 then size + 1 else size

/-- `setup_maze`, after the validated size has been read: adjust the size to
odd, allocate an all-`WALL` grid, carve from (1, 1), then mark `START` at
(1, 1) and `END` at (g_height-2, g_width-2).  The fuel `(5*n*n).toNat` is
large enough for the recursion to run to completion (`setup_fuel_enough`). -/
def setup_maze (shuffle : Grid → Pos → List Pos) (size : ℤ) : Grid :=
  let n := adjSize size
  let g0 : Grid := { height := n, width := n, cell := fun _ => Cell.wall }
  let g1 := carve_path shuffle (5 * n * n).toNat g0 (1, 1)
  (g1.set (1, 1) Cell.start).set (n - 2, n - 2) Cell.finish

/-! ## The game session -/

/-- The player / timer globals:
`p_r`, `p_c`, `p_r_old`, `p_c_old`, `g_timer_started`, `g_start_time`,
`g_final_time_seconds`.  The steady clock is modelled by rational instants;
`g_start_time` holds the instant stored by `steady_clock::now()` at timer
start, and durations are exact differences in seconds. -/
structure GameState where
  p_r : ℤ
  p_c : ℤ
  p_r_old : ℤ
  p_c_old : ℤ
  g_timer_started : Bool
  g_start_time : ℚ
  g_final_time_seconds : ℚ
deriving DecidableEq, Repr

/-- The WASD classification done by the `switch` in `handle_input`: the
(delta row, delta column) pair, or `none` for the `default` branch. -/
def classify (input : Char) : Option (ℤ × ℤ) :=
  if input = 'w' ∨ input = 'W' then some (-1, 0)
  else if input = 's' ∨ input = 'S' then some (1, 0)
  else if input = 'a' ∨ input = 'A' then some (0, -1)
  else if input = 'd' ∨ input = 'D' then some (0, 1)
  else none

/-- `handle_input(maze, input)`: quit/reset commands first, then the WASD
switch, then the bounds-and-wall check, the timer start on a first accepted
move, the position update, and the win test.  `now` is the value
`steady_clock::now()` would return during this call.  The returned status
codes follow the source: 0 no change, 1 move, 2 win, 3 reset, 4 quit. -/
def handle_input (maze : Grid) (now : ℚ) (s : GameState) (input : Char) :
    GameState × ℤ :=
  if input = 'q' ∨ input = 'Q' then (s, 4)
  else if input = 'r' ∨ input = 'R' then (s, 3)
  else
    match classify input with
    | none => (s, 0)
    | some dd =>
      let next_r := s.p_r + dd.1
      let next_c := s.p_c + dd.2
      if 0 ≤ next_r ∧ next_r < maze.height ∧ 0 ≤ next_c ∧ next_c < maze.width ∧
          maze.cell (next_r, next_c) ≠ Cell.wall then
        let s1 := if s.g_timer_started then s else
          { s with g_start_time := now, g_timer_started := true,
                   g_final_time_seconds := 0 }
        let s2 := { s1 with p_r_old := s.p_r, p_c_old := s.p_c,
                            p_r := next_r, p_c := next_c }
        if maze.cell (next_r, next_c) = Cell.finish then (s2, 2) else (s2, 1)
      else (s, 0)

/-- One pass of the `game_loop` body after `handle_input` returned: the win
branch latches `g_final_time_seconds` and stops the timer, and the reset
branch moves the player back to (1, 1) (recording the pre-reset position as
the old position) and clears the timer state. -/
def game_loop_step (maze : Grid) (now : ℚ) (s : GameState) (input : Char) :
    GameState × ℤ :=
  let r := handle_input maze now s input
  if r.2 = 2 then
    ({ r.1 with g_final_time_seconds := now - r.1.g_start_time,
                g_timer_started := false }, 2)
  else if r.2 = 3 then
    ({ r.1 with p_r_old := r.1.p_r, p_c_old := r.1.p_c, p_r := 1, p_c := 1,
                g_timer_started := false, g_final_time_seconds := 0 }, 3)
  else r

/-- The state of one `game_loop` activation: still inside the `while (true)`
loop, or already returned (`return 1` after a win, `return 0` after quit). -/
inductive LoopState where
  | playing : GameState → LoopState
  | wonExit : GameState → LoopState
  | quitExit : GameState → LoopState
deriving DecidableEq, Repr

/-- The `GameState` carried by a `LoopState`. -/
def LoopState.vars : LoopState → GameState
  | LoopState.playing s => s
  | LoopState.wonExit s => s
  | LoopState.quitExit s => s

/-- Entry to `game_loop`: positions set to (1, 1), timer state cleared.
`t0` is whatever stale instant the global `g_start_time` held. -/
def game_loop_init (t0 : ℚ) : GameState :=
  { p_r := 1, p_c := 1, p_r_old := 1, p_c_old := 1,
    g_timer_started := false, g_start_time := t0,
    g_final_time_seconds := 0 }

/-- One iteration of `game_loop`: a returned loop (`wonExit`/`quitExit`)
consumes no further input; otherwise the body runs, exiting the loop on
status 4 (quit) and status 2 (win).  The second component is the status
produced by this iteration (`none` once the loop has returned). -/
def loop_step (maze : Grid) (now : ℚ) (st : LoopState) (input : Char) :
    LoopState × Option ℤ :=
  match st with
  | LoopState.playing s =>
    let r := game_loop_step maze now s input
    if r.2 = 4 then (LoopState.quitExit r.1, some 4)
    else if r.2 = 2 then (LoopState.wonExit r.1, some 2)
    else (LoopState.playing r.1, some r.2)
  | st => (st, none)

/-- Run a list of (input, clock instant) events through `loop_step`. -/
def run_events (maze : Grid) (st : LoopState) :
    List (Char × ℚ) → LoopState
  | [] => st
  | e :: es => run_events maze (loop_step maze e.2 st e.1).1 es

/-- The statuses produced while running a list of events. -/
def run_statuses (maze : Grid) (st : LoopState) :
    List (Char × ℚ) → List (Option ℤ)
  | [] => []
  | e :: es =>
    (loop_step maze e.2 st e.1).2 ::
      run_statuses maze (loop_step maze e.2 st e.1).1 es

/-- The elapsed / final time shown by `print_header`: the latched final time
once it is positive, the running difference `now - g_start_time` while the
timer runs, and nothing before the first move. -/
def elapsed_display (s : GameState) (now : ℚ) : Option ℚ :=
  if 0 < s.g_final_time_seconds then some s.g_final_time_seconds
  else if s.g_timer_started then some (now - s.g_start_time)
  else none

/-! ## Derived notions used by the stated properties -/

/-- Cardinal adjacency of two positions (one unit step). -/
def adjPos (p q : Pos) : Prop :=
  q = (p.1 + 1, p.2) ∨ q = (p.1 - 1, p.2) ∨
  q = (p.1, p.2 + 1) ∨ q = (p.1, p.2 - 1)

/-- Reachability from `p` via cardinal moves whose targets are in-bounds
non-`Wall` cells (the breadth-first check of the spec). -/
inductive reachable (g : Grid) (p : Pos) : Pos → Prop where
  | refl : reachable g p p
  | tail {q r : Pos} : reachable g p q → adjPos q r → inBoundsPos g r →
      g.cell r ≠ Cell.wall → reachable g p r

/-- All in-bounds positions of a grid, as a finite set. -/
def gridCells (g : Grid) : Finset Pos :=
  (Finset.Icc 0 (g.height - 1)) ×ˢ (Finset.Icc 0 (g.width - 1))

/-- Node parity: both coordinates odd (the lattice visited by the carver). -/
def nodeP (p : Pos) : Prop := p.1 % 2 = 1 ∧ p.2 % 2 = 1

instance (p : Pos) : Decidable (nodeP p) := by unfold nodeP; infer_instance

/-- Connector parity: exactly one odd coordinate (the cells opened "midway"
between two nodes by the carver). -/
def connP (p : Pos) : Prop :=
  (p.1 % 2 = 1 ∧ p.2 % 2 = 0) ∨ (p.1 % 2 = 0 ∧ p.2 % 2 = 1)

instance (p : Pos) : Decidable (connP p) := by unfold connP; infer_instance

/-- Number of in-bounds non-`Wall` cells. -/
def openCount (g : Grid) : ℕ :=
  (Finset.filter (fun p => g.cell p ≠ Cell.wall) (gridCells g)).card

/-- Number of in-bounds non-`Wall` cells of node parity. -/
def nodeCount (g : Grid) : ℕ :=
  (Finset.filter (fun p => g.cell p ≠ Cell.wall ∧ nodeP p) (gridCells g)).card

/-- Number of in-bounds non-`Wall` cells of connector parity: these are
exactly the connecting cells the carver opened "midway", so this counts the
carved connecting passages. -/
def connCount (g : Grid) : ℕ :=
  (Finset.filter (fun p => g.cell p ≠ Cell.wall ∧ connP p) (gridCells g)).card

/-- Number of in-bounds cells holding `Start`. -/
def startCount (g : Grid) : ℕ :=
  (Finset.filter (fun p => g.cell p = Cell.start) (gridCells g)).card

/-- Number of in-bounds cells holding `End`. -/
def finishCount (g : Grid) : ℕ :=
  (Finset.filter (fun p => g.cell p = Cell.finish) (gridCells g)).card

/-- Number of interior `Wall` cells — the measure showing the fuel of
`carveAux` is never exhausted. -/
def interiorWallCount (g : Grid) : ℕ :=
  (Finset.filter (fun p => g.cell p = Cell.wall)
    ((Finset.Icc 1 (g.height - 2)) ×ˢ (Finset.Icc 1 (g.width - 2)))).card

/-- No cell with two even coordinates is ever opened (carving invariant). -/
def NoEvenEven (g : Grid) : Prop :=
  ∀ p : Pos, p.1 % 2 = 0 → p.2 % 2 = 0 → g.cell p = Cell.wall

/-- Every opened connector cell has both of its axis neighbours (the two
nodes it connects) open (carving invariant). -/
def ConnectorClosed (g : Grid) : Prop :=
  (∀ p : Pos, p.1 % 2 = 0 → p.2 % 2 = 1 → g.cell p ≠ Cell.wall →
    g.cell (p.1 - 1, p.2) ≠ Cell.wall ∧ g.cell (p.1 + 1, p.2) ≠ Cell.wall) ∧
  (∀ p : Pos, p.1 % 2 = 1 → p.2 % 2 = 0 → g.cell p ≠ Cell.wall →
    g.cell (p.1, p.2 - 1) ≠ Cell.wall ∧ g.cell (p.1, p.2 + 1) ≠ Cell.wall)

/-- A node is finished when each of its four two-step neighbours inside the
interior is open: when `carve_path(r, c)` returns, the loop has ensured this
for (r, c). -/
def NbrsOpen (g : Grid) (p : Pos) : Prop :=
  ∀ d ∈ dirList, interiorPos g (p.1 + d.1, p.2 + d.2) →
    g.cell (p.1 + d.1, p.2 + d.2) ≠ Cell.wall

/-- The postcondition established by one `carveAux` run (grid `g` before,
`g'` after, current cell `p`, remaining shuffled directions `ds`). -/
structure CarvePost (g g' : Grid) (p : Pos) (ds : List Pos) : Prop where
  hheight : g'.height = g.height
  hwidth : g'.width = g.width
  evol : ∀ q : Pos, g'.cell q = g.cell q ∨
    (g'.cell q = Cell.path ∧ g.cell q = Cell.wall)
  outside : ∀ q : Pos, ¬ interiorPos g q → g'.cell q = g.cell q
  inv1 : NoEvenEven g'
  inv2 : ConnectorClosed g'
  balance : nodeCount g' + connCount g = nodeCount g + connCount g'
  frontier : ∀ d ∈ ds, interiorPos g (p.1 + d.1, p.2 + d.2) →
    g'.cell (p.1 + d.1, p.2 + d.2) ≠ Cell.wall
  hered : ∀ q : Pos, nodeP q → g.cell q = Cell.wall → g'.cell q ≠ Cell.wall →
    NbrsOpen g' q
  reach : ∀ q : Pos, g.cell q = Cell.wall → g'.cell q ≠ Cell.wall →
    reachable g' p q

/-- The precondition under which `carveAux` runs inside `carve_path`. -/
structure CarvePre (fuel : ℕ) (g : Grid) (p : Pos) (ds : List Pos) : Prop where
  bw : ∀ q : Pos, g.cell q = Cell.wall ∨ g.cell q = Cell.path
  inv1 : NoEvenEven g
  inv2 : ConnectorClosed g
  node : nodeP p
  pint : interiorPos g p
  popen : g.cell p ≠ Cell.wall
  fuelok : 5 * interiorWallCount g + ds.length ≤ fuel
  dsok : ∀ d ∈ ds, d ∈ dirList

/-- The verified shape of a grid returned by `setup_maze` for an
(already adjusted) odd size `n`. -/
structure SetupSpec (G : Grid) (n : ℤ) : Prop where
  hheight : G.height = n
  hwidth : G.width = n
  startAt : G.cell (1, 1) = Cell.start
  finishAt : G.cell (n - 2, n - 2) = Cell.finish
  onlyStart : ∀ q : Pos, G.cell q = Cell.start → q = (1, 1)
  onlyFinish : ∀ q : Pos, G.cell q = Cell.finish → q = (n - 2, n - 2)
  boundaryWall : ∀ q : Pos, ¬ interiorPos G q → G.cell q = Cell.wall
  connected : ∀ q : Pos, G.cell q ≠ Cell.wall → reachable G (1, 1) q
  noWallReach : ∀ q : Pos, reachable G (1, 1) q → G.cell q ≠ Cell.wall
  nodesOpen : ∀ q : Pos, nodeP q → interiorPos G q → G.cell q ≠ Cell.wall
  treeCount : nodeCount G = connCount G + 1
  partition : openCount G = nodeCount G + connCount G
  startCount1 : startCount G = 1
  finishCount1 : finishCount G = 1

/-- The player occupies an in-bounds non-`Wall` cell. -/
def PosOK (maze : Grid) (s : GameState) : Prop :=
  inBoundsPos maze (s.p_r, s.p_c) ∧ maze.cell (s.p_r, s.p_c) ≠ Cell.wall

/-! ## Concrete fixtures for scenarios, witnesses and counterexamples -/

/-- The shuffle oracle that never permutes (one concrete outcome of
`random_shuffle`). -/
def constShuffle : Grid → Pos → List Pos := fun _ _ => dirList

/-- A tiny grid realizing the spec scenario: (1,1) is `Start`, (2,1) is
`Open`, and (1,2) — like everything else — is `Wall`. -/
def demo_grid : Grid :=
  { height := 4, width := 4,
    cell := fun p =>
      if p = (1, 1) then Cell.start
      else if p = (2, 1) then Cell.path
      else Cell.wall }

/-- A tiny grid with `End` adjacent to `Start`: (1,1) is `Start`, (1,2) is
`End`, everything else `Wall`. -/
def demo_grid2 : Grid :=
  { height := 4, width := 4,
    cell := fun p =>
      if p = (1, 1) then Cell.start
      else if p = (1, 2) then Cell.finish
      else Cell.wall }

/-- A fresh session at (1,1) with the timer not yet started. -/
def demo_session : GameState :=
  { p_r := 1, p_c := 1, p_r_old := 1, p_c_old := 1,
    g_timer_started := false, g_start_time := 0,
    g_final_time_seconds := 0 }

/-- A running session away from the start cell (timer started at instant 5). -/
def demo_running : GameState :=
  { p_r := 2, p_c := 1, p_r_old := 1, p_c_old := 1,
    g_timer_started := true, g_start_time := 5,
    g_final_time_seconds := 0 }

/-- A running session at (1,1), one step away from `End` in `demo_grid2`
(timer started at instant 3). -/
def demo_prewin : GameState :=
  { p_r := 1, p_c := 1, p_r_old := 1, p_c_old := 1,
    g_timer_started := true, g_start_time := 3,
    g_final_time_seconds := 0 }

/-! ## Basic lemmas about grids -/

theorem Grid.height_set (g : Grid) (p : Pos) (v : Cell) :
    (g.set p v).height = g.height := rfl

theorem Grid.width_set (g : Grid) (p : Pos) (v : Cell) :
    (g.set p v).width = g.width := rfl

theorem Grid.cell_set (g : Grid) (p q : Pos) (v : Cell) :
    (g.set p v).cell q = if q = p then v else g.cell q := rfl

theorem Grid.cell_set_same (g : Grid) (p : Pos) (v : Cell) :
    (g.set p v).cell p = v := by simp [Grid.set]

theorem Grid.cell_set_other (g : Grid) {p q : Pos} (v : Cell) (h : q ≠ p) :
    (g.set p v).cell q = g.cell q := by simp [Grid.set, h]

/-! ## Session helper lemmas -/

theorem classify_not_quit {input : Char} {dd : ℤ × ℤ}
    (h : classify input = some dd) : ¬(input = 'q' ∨ input = 'Q') := by
  rintro (rfl | rfl) <;> simp [classify] at h

theorem classify_not_reset {input : Char} {dd : ℤ × ℤ}
    (h : classify input = some dd) : ¬(input = 'r' ∨ input = 'R') := by
  rintro (rfl | rfl) <;> simp [classify] at h

/-- Characterization of `handle_input` on an accepted directional move. -/
theorem handle_input_accepted (maze : Grid) (now : ℚ) (s : GameState)
    (input : Char) (dd : ℤ × ℤ) (hc : classify input = some dd)
    (hb : inBoundsPos maze (s.p_r + dd.1, s.p_c + dd.2))
    (hw : maze.cell (s.p_r + dd.1, s.p_c + dd.2) ≠ Cell.wall) :
    handle_input maze now s input =
      ({ p_r := s.p_r + dd.1, p_c := s.p_c + dd.2,
         p_r_old := s.p_r, p_c_old := s.p_c,
         g_timer_started := true,
         g_start_time := if s.g_timer_started then s.g_start_time else now,
         g_final_time_seconds :=
           if s.g_timer_started then s.g_final_time_seconds else 0 },
       if maze.cell (s.p_r + dd.1, s.p_c + dd.2) = Cell.finish then 2 else 1) := by
  obtain ⟨h1, h2, h3, h4⟩ := hb
  simp only [handle_input, classify_not_quit hc, classify_not_reset hc,
    if_false, hc]
  rw [if_pos ⟨h1, h2, h3, h4, hw⟩]
  cases hts : s.g_timer_started <;>
    by_cases hf : maze.cell (s.p_r + dd.1, s.p_c + dd.2) = Cell.finish <;>
      simp [hts, hf]

/-- Characterization of `handle_input` on a rejected directional move. -/
theorem handle_input_rejected (maze : Grid) (now : ℚ) (s : GameState)
    (input : Char) (dd : ℤ × ℤ) (hc : classify input = some dd)
    (hb : ¬ inBoundsPos maze (s.p_r + dd.1, s.p_c + dd.2) ∨
      maze.cell (s.p_r + dd.1, s.p_c + dd.2) = Cell.wall) :
    handle_input maze now s input = (s, 0) := by
  simp only [handle_input, classify_not_quit hc, classify_not_reset hc,
    if_false, hc]
  rw [if_neg]
  rintro ⟨h1, h2, h3, h4, h5⟩
  rcases hb with hb | hb
  · exact hb ⟨h1, h2, h3, h4⟩
  · exact h5 hb

/-- Characterization of `handle_input` on an unclassified token. -/
theorem handle_input_other (maze : Grid) (now : ℚ) (s : GameState)
    (input : Char) (hc : classify input = none)
    (hq : ¬(input = 'q' ∨ input = 'Q')) (hr : ¬(input = 'r' ∨ input = 'R')) :
    handle_input maze now s input = (s, 0) := by
  simp [handle_input, hq, hr, hc]

/-- Characterization of `handle_input` on the quit tokens. -/
theorem handle_input_quit (maze : Grid) (now : ℚ) (s : GameState)
    (input : Char) (hq : input = 'q' ∨ input = 'Q') :
    handle_input maze now s input = (s, 4) := by
  simp [handle_input, hq]

/-- Characterization of `handle_input` on the reset tokens. -/
theorem handle_input_reset (maze : Grid) (now : ℚ) (s : GameState)
    (input : Char) (hr : input = 'r' ∨ input = 'R') :
    handle_input maze now s input = (s, 3) := by
  rcases hr with rfl | rfl <;> simp [handle_input]

/-- Every `handle_input` call either leaves the state untouched or reports
an accepted move (status 1 or 2). -/
theorem handle_input_frame (maze : Grid) (now : ℚ) (s : GameState)
    (input : Char) :
    (handle_input maze now s input).1 = s ∨
    ((handle_input maze now s input).2 = 1 ∨
      (handle_input maze now s input).2 = 2) := by
  by_cases hq : input = 'q' ∨ input = 'Q'
  · rw [handle_input_quit maze now s input hq]; left; rfl
  by_cases hr : input = 'r' ∨ input = 'R'
  · rw [handle_input_reset maze now s input hr]; left; rfl
  cases hc : classify input with
  | none => rw [handle_input_other maze now s input hc hq hr]; left; rfl
  | some dd =>
    by_cases hb : inBoundsPos maze (s.p_r + dd.1, s.p_c + dd.2)
    · by_cases hw : maze.cell (s.p_r + dd.1, s.p_c + dd.2) = Cell.wall
      · rw [handle_input_rejected maze now s input dd hc (Or.inr hw)]
        left; rfl
      · rw [handle_input_accepted maze now s input dd hc hb hw]
        right
        by_cases hf : maze.cell (s.p_r + dd.1, s.p_c + dd.2) = Cell.finish <;>
          simp [hf]
    · rw [handle_input_rejected maze now s input dd hc (Or.inl hb)]
      left; rfl

/-- Accepted moves land on an in-bounds non-`Wall` cell. -/
theorem handle_input_move_pos (maze : Grid) (now : ℚ) (s : GameState)
    (input : Char)
    (h : (handle_input maze now s input).2 = 1 ∨
      (handle_input maze now s input).2 = 2) :
    inBoundsPos maze ((handle_input maze now s input).1.p_r,
        (handle_input maze now s input).1.p_c) ∧
      maze.cell ((handle_input maze now s input).1.p_r,
        (handle_input maze now s input).1.p_c) ≠ Cell.wall := by
  by_cases hq : input = 'q' ∨ input = 'Q'
  · rw [handle_input_quit maze now s input hq] at h ⊢
    simp at h
  by_cases hr : input = 'r' ∨ input = 'R'
  · rw [handle_input_reset maze now s input hr] at h ⊢
    simp at h
  cases hc : classify input with
  | none =>
    rw [handle_input_other maze now s input hc hq hr] at h
    simp at h
  | some dd =>
    by_cases hb : inBoundsPos maze (s.p_r + dd.1, s.p_c + dd.2)
    · by_cases hw : maze.cell (s.p_r + dd.1, s.p_c + dd.2) = Cell.wall
      · rw [handle_input_rejected maze now s input dd hc (Or.inr hw)] at h
        simp at h
      · rw [handle_input_accepted maze now s input dd hc hb hw]
        exact ⟨hb, hw⟩
    · rw [handle_input_rejected maze now s input dd hc (Or.inl hb)] at h
      simp at h

/-- Timer start on a first accepted move. -/
theorem handle_input_timer_start (maze : Grid) (now : ℚ) (s : GameState)
    (input : Char)
    (h : (handle_input maze now s input).2 = 1 ∨
      (handle_input maze now s input).2 = 2) :
    (handle_input maze now s input).1.g_timer_started = true ∧
    (handle_input maze now s input).1.g_start_time =
      (if s.g_timer_started then s.g_start_time else now) := by
  by_cases hq : input = 'q' ∨ input = 'Q'
  · rw [handle_input_quit maze now s input hq] at h; simp at h
  by_cases hr : input = 'r' ∨ input = 'R'
  · rw [handle_input_reset maze now s input hr] at h; simp at h
  cases hc : classify input with
  | none =>
    rw [handle_input_other maze now s input hc hq hr] at h; simp at h
  | some dd =>
    by_cases hb : inBoundsPos maze (s.p_r + dd.1, s.p_c + dd.2)
    · by_cases hw : maze.cell (s.p_r + dd.1, s.p_c + dd.2) = Cell.wall
      · rw [handle_input_rejected maze now s input dd hc (Or.inr hw)] at h
        simp at h
      · rw [handle_input_accepted maze now s input dd hc hb hw]
        exact ⟨rfl, rfl⟩
    · rw [handle_input_rejected maze now s input dd hc (Or.inl hb)] at h
      simp at h

/-- A step that does not report an accepted move never turns the timer on. -/
theorem game_loop_step_timer_false (maze : Grid) (now : ℚ) (s : GameState)
    (input : Char) (hs : s.g_timer_started = false)
    (h1 : (game_loop_step maze now s input).2 ≠ 1)
    (h2 : (game_loop_step maze now s input).2 ≠ 2) :
    (game_loop_step maze now s input).1.g_timer_started = false := by
  by_cases hw : (handle_input maze now s input).2 = 2
  · exact absurd (by simp [game_loop_step, hw]) h2
  by_cases hr : (handle_input maze now s input).2 = 3
  · simp [game_loop_step, hw, hr]
  rcases handle_input_frame maze now s input with hfr | hst
  · simp only [game_loop_step, if_neg hw, if_neg hr]
    rw [hfr]; exact hs
  · rcases hst with hm | hm
    · exact absurd (by simp [game_loop_step, hw, hr, hm]) h1
    · exact absurd hm hw

/-- One loop iteration keeps the player on an in-bounds non-`Wall` cell. -/
theorem game_loop_step_posOK (maze : Grid) (now : ℚ) (s : GameState)
    (input : Char) (h11 : inBoundsPos maze (1, 1) ∧ maze.cell (1, 1) ≠ Cell.wall)
    (h : PosOK maze s) : PosOK maze (game_loop_step maze now s input).1 := by
  by_cases hw : (handle_input maze now s input).2 = 2
  · have := handle_input_move_pos maze now s input (Or.inr hw)
    simpa [game_loop_step, hw, PosOK] using this
  by_cases hr : (handle_input maze now s input).2 = 3
  · simpa [game_loop_step, hw, hr, PosOK] using h11
  rcases handle_input_frame maze now s input with hfr | hst
  · simp only [game_loop_step, if_neg hw, if_neg hr]
    rw [hfr]; exact h
  · rcases hst with hm | hm
    · have := handle_input_move_pos maze now s input (Or.inl hm)
      simpa [game_loop_step, hw, hr, PosOK] using this
    · exact absurd hm hw

/-- The position invariant, lifted to the loop state. -/
theorem run_events_posOK (maze : Grid)
    (h11 : inBoundsPos maze (1, 1) ∧ maze.cell (1, 1) ≠ Cell.wall) :
    ∀ (events : List (Char × ℚ)) (st : LoopState), PosOK maze st.vars →
      PosOK maze (run_events maze st events).vars := by
  intro events
  induction events with
  | nil => intro st h; exact h
  | cons e es ih =>
    intro st h
    apply ih
    cases st with
    | playing s =>
      have hst := game_loop_step_posOK maze e.2 s e.1 h11 h
      simp only [loop_step]
      by_cases h4 : (game_loop_step maze e.2 s e.1).2 = 4
      · simpa [h4, LoopState.vars] using hst
      by_cases h2 : (game_loop_step maze e.2 s e.1).2 = 2
      · simpa [h4, h2, LoopState.vars] using hst
      · simpa [h4, h2, LoopState.vars] using hst
    | wonExit s => exact h
    | quitExit s => exact h

/-- Runs whose statuses never report an accepted move keep the timer off. -/
theorem run_events_timer_false (maze : Grid) :
    ∀ (events : List (Char × ℚ)) (st : LoopState),
      st.vars.g_timer_started = false →
      (∀ r ∈ run_statuses maze st events, r ≠ some 1 ∧ r ≠ some 2) →
      (run_events maze st events).vars.g_timer_started = false := by
  intro events
  induction events with
  | nil => intro st h _; exact h
  | cons e es ih =>
    intro st h hns
    have hhd := hns (loop_step maze e.2 st e.1).2 (by
      simp [run_statuses])
    have htl : ∀ r ∈ run_statuses maze (loop_step maze e.2 st e.1).1 es,
        r ≠ some 1 ∧ r ≠ some 2 := by
      intro r hrm
      exact hns r (by simp [run_statuses, hrm])
    apply ih
    · cases st with
      | playing s =>
        simp only [loop_step] at hhd ⊢
        by_cases h4 : (game_loop_step maze e.2 s e.1).2 = 4
        · simp only [h4, if_pos rfl] at hhd ⊢
          simp only [LoopState.vars]
          by_cases hw : (handle_input maze e.2 s e.1).2 = 2
          · simp [game_loop_step, hw] at h4
          by_cases hr : (handle_input maze e.2 s e.1).2 = 3
          · simp [game_loop_step, hw, hr] at h4
          rcases handle_input_frame maze e.2 s e.1 with hfr | hst
          · simp only [game_loop_step, if_neg hw, if_neg hr]
            rw [hfr]; exact h
          · rcases hst with hm | hm
            · simp [game_loop_step, hw, hr, hm] at h4
            · exact absurd hm hw
        · by_cases h2 : (game_loop_step maze e.2 s e.1).2 = 2
          · simp [h4, h2] at hhd
          · simp only [if_neg h4, if_neg h2] at hhd ⊢
            simp only [LoopState.vars]
            apply game_loop_step_timer_false maze e.2 s e.1 h
            · intro h1
              exact hhd.1 (by rw [h1])
            · exact h2
      | wonExit s => exact h
      | quitExit s => exact h
    · exact htl

/-! ## Claim C5 -/

/-- C5: for every session state and every directional token whose candidate
cell is in bounds, not a `Wall`, and not the `End`: `handle_input` updates
the previous position to the current position, the current position to the
candidate, and returns status 1 (`Moved`); in particular, from (1,1) with
(2,1) `Open`, Down returns `Moved` with position (2,1) while Right against
the `Wall` at (1,2) returns `Idle`. -/
theorem C5_accepted_move_updates :
    (∀ (maze : Grid) (now : ℚ) (s : GameState) (input : Char) (dd : ℤ × ℤ),
      classify input = some dd →
      inBoundsPos maze (s.p_r + dd.1, s.p_c + dd.2) →
      maze.cell (s.p_r + dd.1, s.p_c + dd.2) ≠ Cell.wall →
      maze.cell (s.p_r + dd.1, s.p_c + dd.2) ≠ Cell.finish →
      (handle_input maze now s input).2 = 1 ∧
      (handle_input maze now s input).1.p_r_old = s.p_r ∧
      (handle_input maze now s input).1.p_c_old = s.p_c ∧
      (handle_input maze now s input).1.p_r = s.p_r + dd.1 ∧
      (handle_input maze now s input).1.p_c = s.p_c + dd.2) ∧
    (handle_input demo_grid 0 demo_session 'd').2 = 0 ∧
    (handle_input demo_grid 0 demo_session 'd').1 = demo_session ∧
    (handle_input demo_grid 0 demo_session 's').2 = 1 ∧
    (handle_input demo_grid 0 demo_session 's').1.p_r = 2 ∧
    (handle_input demo_grid 0 demo_session 's').1.p_c = 1 := by
  constructor
  · intro maze now s input dd hc hb hw hf
    rw [handle_input_accepted maze now s input dd hc hb hw]
    simp [hf]
  · refine ⟨?_, ?_, ?_, ?_, ?_⟩ <;> decide

/-- Witness for C5: the general part applied at the scenario input. -/
theorem C5_accepted_move_updates_witness :
    classify 's' = some (1, 0) ∧
    inBoundsPos demo_grid (demo_session.p_r + 1, demo_session.p_c + 0) ∧
    demo_grid.cell (demo_session.p_r + 1, demo_session.p_c + 0) ≠ Cell.wall ∧
    demo_grid.cell (demo_session.p_r + 1, demo_session.p_c + 0) ≠ Cell.finish ∧
    ((handle_input demo_grid 0 demo_session 's').2 = 1 ∧
      (handle_input demo_grid 0 demo_session 's').1.p_r_old = demo_session.p_r ∧
      (handle_input demo_grid 0 demo_session 's').1.p_c_old = demo_session.p_c ∧
      (handle_input demo_grid 0 demo_session 's').1.p_r = demo_session.p_r + 1 ∧
      (handle_input demo_grid 0 demo_session 's').1.p_c = demo_session.p_c + 0) :=
  ⟨by decide, by decide, by decide, by decide,
    C5_accepted_move_updates.1 demo_grid 0 demo_session 's' (1, 0)
      (by decide) (by decide) (by decide) (by decide)⟩

/-! ## Claim C6 -/

/-- C6: a directional token whose candidate is out of bounds or a `Wall`,
and any token that is neither directional nor Reset nor Quit, leaves the
state bit-for-bit unchanged and returns status 0 (`Idle`); a Quit token
returns status 4 (`Quit`) with no state mutation. -/
theorem C6_rejection_is_pure :
    (∀ (maze : Grid) (now : ℚ) (s : GameState) (input : Char) (dd : ℤ × ℤ),
      classify input = some dd →
      (¬ inBoundsPos maze (s.p_r + dd.1, s.p_c + dd.2) ∨
        maze.cell (s.p_r + dd.1, s.p_c + dd.2) = Cell.wall) →
      handle_input maze now s input = (s, 0)) ∧
    (∀ (maze : Grid) (now : ℚ) (s : GameState) (input : Char),
      classify input = none → ¬(input = 'q' ∨ input = 'Q') →
      ¬(input = 'r' ∨ input = 'R') →
      handle_input maze now s input = (s, 0)) ∧
    (∀ (maze : Grid) (now : ℚ) (s : GameState) (input : Char),
      (input = 'q' ∨ input = 'Q') →
      handle_input maze now s input = (s, 4)) :=
  ⟨fun maze now s input dd hc hb => handle_input_rejected maze now s input dd hc hb,
   fun maze now s input hc hq hr => handle_input_other maze now s input hc hq hr,
   fun maze now s input hq => handle_input_quit maze now s input hq⟩

/-- Witness for C6: a Right move against the `Wall` at (1,2), an unmapped
token 'x', and a Quit token, all from the scenario session. -/
theorem C6_rejection_is_pure_witness :
    classify 'd' = some (0, 1) ∧
    demo_grid.cell (demo_session.p_r + 0, demo_session.p_c + 1) = Cell.wall ∧
    classify 'x' = none ∧
    handle_input demo_grid 0 demo_session 'd' = (demo_session, 0) ∧
    handle_input demo_grid 0 demo_session 'x' = (demo_session, 0) ∧
    handle_input demo_grid 0 demo_session 'q' = (demo_session, 4) :=
  ⟨by decide, by decide, by decide,
    C6_rejection_is_pure.1 demo_grid 0 demo_session 'd' (0, 1) (by decide)
      (Or.inr (by decide)),
    C6_rejection_is_pure.2.1 demo_grid 0 demo_session 'x' (by decide)
      (by decide) (by decide),
    C6_rejection_is_pure.2.2 demo_grid 0 demo_session 'q' (Or.inl rfl)⟩

/-! ## Claim C7 -/

/-- C7: the timer is off on session entry; a loop iteration that does not
report an accepted move (status 1 or 2) never turns it on; an accepted move
reported from any state turns it on (recording "now" when it was off); and
along any run whose statuses never include an accepted move, the timer stays
in the not-started state. -/
theorem C7_timer_starts_on_first_accepted_move :
    (∀ t0 : ℚ, (game_loop_init t0).g_timer_started = false) ∧
    (∀ (maze : Grid) (now : ℚ) (s : GameState) (input : Char),
      s.g_timer_started = false →
      (game_loop_step maze now s input).2 ≠ 1 →
      (game_loop_step maze now s input).2 ≠ 2 →
      (game_loop_step maze now s input).1.g_timer_started = false) ∧
    (∀ (maze : Grid) (now : ℚ) (s : GameState) (input : Char),
      ((handle_input maze now s input).2 = 1 ∨
        (handle_input maze now s input).2 = 2) →
      (handle_input maze now s input).1.g_timer_started = true ∧
      (handle_input maze now s input).1.g_start_time =
        (if s.g_timer_started then s.g_start_time else now)) ∧
    (∀ (maze : Grid) (t0 : ℚ) (events : List (Char × ℚ)),
      (∀ r ∈ run_statuses maze (LoopState.playing (game_loop_init t0)) events,
        r ≠ some 1 ∧ r ≠ some 2) →
      (run_events maze (LoopState.playing (game_loop_init t0))
        events).vars.g_timer_started = false) :=
  ⟨fun _ => rfl,
   fun maze now s input hs h1 h2 =>
     game_loop_step_timer_false maze now s input hs h1 h2,
   fun maze now s input h => handle_input_timer_start maze now s input h,
   fun maze t0 events h => run_events_timer_false maze events _ rfl h⟩

/-- Witness for C7: a run of three non-accepted inputs (an unmapped token,
a rejected Right move, a reset) from a fresh session on the scenario grid. -/
theorem C7_timer_starts_on_first_accepted_move_witness :
    (∀ r ∈ run_statuses demo_grid
        (LoopState.playing (game_loop_init 0))
        [('x', 1), ('d', 2), ('r', 3)],
      r ≠ some 1 ∧ r ≠ some 2) ∧
    (run_events demo_grid (LoopState.playing (game_loop_init 0))
      [('x', 1), ('d', 2), ('r', 3)]).vars.g_timer_started = false :=
  ⟨by decide,
    C7_timer_starts_on_first_accepted_move.2.2.2 demo_grid 0
      [('x', 1), ('d', 2), ('r', 3)] (by decide)⟩

/-! ## Claim C10 -/

/-- C10: from the initial position (1,1) on a grid whose start cell is
in-bounds and open, every run of loop iterations keeps the player current
position in bounds and on a non-`Wall` cell; and a candidate cell holding
`Start` is accepted exactly like any open cell (status 1, position updated).
-/
theorem C10_player_position_invariant :
    (∀ (maze : Grid) (t0 : ℚ) (events : List (Char × ℚ)),
      inBoundsPos maze (1, 1) → maze.cell (1, 1) ≠ Cell.wall →
      PosOK maze (run_events maze (LoopState.playing (game_loop_init t0))
        events).vars) ∧
    (∀ (maze : Grid) (now : ℚ) (s : GameState) (input : Char) (dd : ℤ × ℤ),
      classify input = some dd →
      inBoundsPos maze (s.p_r + dd.1, s.p_c + dd.2) →
      maze.cell (s.p_r + dd.1, s.p_c + dd.2) = Cell.start →
      (handle_input maze now s input).2 = 1 ∧
      (handle_input maze now s input).1.p_r = s.p_r + dd.1 ∧
      (handle_input maze now s input).1.p_c = s.p_c + dd.2) := by
  constructor
  · intro maze t0 events h1 h2
    exact run_events_posOK maze ⟨h1, h2⟩ events _ ⟨h1, h2⟩
  · intro maze now s input dd hc hb hs
    have hw : maze.cell (s.p_r + dd.1, s.p_c + dd.2) ≠ Cell.wall := by
      rw [hs]; exact fun h => Cell.noConfusion h
    have hf : maze.cell (s.p_r + dd.1, s.p_c + dd.2) ≠ Cell.finish := by
      rw [hs]; exact fun h => Cell.noConfusion h
    rw [handle_input_accepted maze now s input dd hc hb hw]
    simp [hf]

/-- Witness for C10: a short run on the scenario grid, and a Up move from
(2,1) back onto the `Start` cell. -/
theorem C10_player_position_invariant_witness :
    (inBoundsPos demo_grid (1, 1) ∧ demo_grid.cell (1, 1) ≠ Cell.wall ∧
      PosOK demo_grid (run_events demo_grid
        (LoopState.playing (game_loop_init 0))
        [('s', 1), ('d', 2)]).vars) ∧
    (classify 'w' = some (-1, 0) ∧
      inBoundsPos demo_grid (demo_running.p_r + -1, demo_running.p_c + 0) ∧
      demo_grid.cell (demo_running.p_r + -1, demo_running.p_c + 0) = Cell.start ∧
      ((handle_input demo_grid 0 demo_running 'w').2 = 1 ∧
        (handle_input demo_grid 0 demo_running 'w').1.p_r = demo_running.p_r + -1 ∧
        (handle_input demo_grid 0 demo_running 'w').1.p_c = demo_running.p_c + 0)) :=
  ⟨⟨by decide, by decide,
      C10_player_position_invariant.1 demo_grid 0 [('s', 1), ('d', 2)]
        (by decide) (by decide)⟩,
   ⟨by decide, by decide, by decide,
      C10_player_position_invariant.2 demo_grid 0 demo_running 'w' (-1, 0)
        (by decide) (by decide) (by decide)⟩⟩

/-! ## Claim C8 -/

/-- C8 counterexample: from a running session at (2,1), processing Reset
sets the old position to the pre-reset position (2,1), not to (1,1) as the
claim states; and in a finished (won) session the loop has returned, so a
Reset token is not processed at all (no `Reset` result, position unchanged).
-/
theorem C8_counterexample :
    (game_loop_step demo_grid 9 demo_running 'r').2 = 3 ∧
    (game_loop_step demo_grid 9 demo_running 'r').1.p_r = 1 ∧
    (game_loop_step demo_grid 9 demo_running 'r').1.p_c = 1 ∧
    (game_loop_step demo_grid 9 demo_running 'r').1.p_r_old = 2 ∧
    (game_loop_step demo_grid 9 demo_running 'r').1.p_c_old = 1 ∧
    ((2 : ℤ), (1 : ℤ)) ≠ ((1 : ℤ), (1 : ℤ)) ∧
    loop_step demo_grid 9 (LoopState.wonExit demo_running) 'r' =
      (LoopState.wonExit demo_running, none) ∧
    (none : Option ℤ) ≠ some 3 := by
  refine ⟨?_, ?_, ?_, ?_, ?_, ?_, ?_, ?_⟩ <;> decide

/-- C8 (amended): in a still-playing session, a Reset token moves the player
position to (1,1), records the pre-reset position as the old position, stops
the timer, zeroes the final time, and returns status 3 (`Reset`); once the
loop has returned (after a win or quit) no token is processed any more. -/
theorem C8_reset_behavior :
    (∀ (maze : Grid) (now : ℚ) (s : GameState) (input : Char),
      (input = 'r' ∨ input = 'R') →
      game_loop_step maze now s input =
        ({ s with p_r := 1, p_c := 1, p_r_old := s.p_r, p_c_old := s.p_c,
                  g_timer_started := false, g_final_time_seconds := 0 }, 3)) ∧
    (∀ (maze : Grid) (now : ℚ) (s : GameState) (input : Char),
      loop_step maze now (LoopState.wonExit s) input =
        (LoopState.wonExit s, none) ∧
      loop_step maze now (LoopState.quitExit s) input =
        (LoopState.quitExit s, none)) := by
  constructor
  · intro maze now s input hr
    rw [game_loop_step, handle_input_reset maze now s input hr]
    norm_num
  · intro maze now s input
    exact ⟨rfl, rfl⟩

/-- Witness for C8 (amended): Reset from the running session at (2,1). -/
theorem C8_reset_behavior_witness :
    (('r' : Char) = 'r' ∨ ('r' : Char) = 'R') ∧
    game_loop_step demo_grid 9 demo_running 'r' =
      ({ demo_running with
          p_r := 1, p_c := 1,
          p_r_old := demo_running.p_r, p_c_old := demo_running.p_c,
          g_timer_started := false, g_final_time_seconds := 0 }, 3) :=
  ⟨Or.inl rfl,
    C8_reset_behavior.1 demo_grid 9 demo_running 'r' (Or.inl rfl)⟩

/-! ## Claim C9 -/

/-- C9 counterexample: on a grid with `End` at (1,2), moving Right from
(1,1) wins — the loop exits with the timer stopped and the final time
latched (10 − 3 = 7) — but a subsequent Reset token is not processed at
all: the result is `none`, not `Reset`, and the position stays (1,2), not
(1,1), because `game_loop` has already returned. -/
theorem C9_counterexample :
    loop_step demo_grid2 10 (LoopState.playing demo_prewin) 'd' =
      (LoopState.wonExit {
          p_r := 1, p_c := 2, p_r_old := 1, p_c_old := 1,
          g_timer_started := false, g_start_time := 3,
          g_final_time_seconds := 7 }, some 2) ∧
    loop_step demo_grid2 99 (LoopState.wonExit {
          p_r := 1, p_c := 2, p_r_old := 1, p_c_old := 1,
          g_timer_started := false, g_start_time := 3,
          g_final_time_seconds := 7 }) 'r' =
      (LoopState.wonExit {
          p_r := 1, p_c := 2, p_r_old := 1, p_c_old := 1,
          g_timer_started := false, g_start_time := 3,
          g_final_time_seconds := 7 }, none) ∧
    ((none : Option ℤ) ≠ some 3) ∧ ((2 : ℤ) ≠ 1) := by
  have h1 : handle_input demo_grid2 10 demo_prewin 'd' =
      ({ p_r := 1, p_c := 2, p_r_old := 1, p_c_old := 1,
         g_timer_started := true, g_start_time := 3,
         g_final_time_seconds := 0 }, 2) := by decide
  refine ⟨?_, by decide, by decide, by decide⟩
  simp only [loop_step, game_loop_step, h1]
  norm_num

/-- C9 (amended): a directional token whose in-bounds candidate holds `End`
makes the loop iteration report status 2 (`Won`), stop the timer, and latch
the elapsed time `now - start` as the final time, exiting the loop; the
exited loop processes no further token (in particular no Reset), so the
exposed elapsed/final time stays constant; position (1,1) with a cleared
timer is established again on entry to a new `game_loop`. -/
theorem C9_win_latches_and_freezes :
    (∀ (maze : Grid) (now : ℚ) (s : GameState) (input : Char) (dd : ℤ × ℤ),
      classify input = some dd →
      inBoundsPos maze (s.p_r + dd.1, s.p_c + dd.2) →
      maze.cell (s.p_r + dd.1, s.p_c + dd.2) = Cell.finish →
      loop_step maze now (LoopState.playing s) input =
        (LoopState.wonExit {
            p_r := s.p_r + dd.1, p_c := s.p_c + dd.2,
            p_r_old := s.p_r, p_c_old := s.p_c,
            g_timer_started := false,
            g_start_time := if s.g_timer_started then s.g_start_time else now,
            g_final_time_seconds :=
              now - (if s.g_timer_started then s.g_start_time else now) },
          some 2)) ∧
    (∀ (maze : Grid) (now : ℚ) (s : GameState) (input : Char),
      loop_step maze now (LoopState.wonExit s) input =
        (LoopState.wonExit s, none)) ∧
    (∀ (s : GameState) (t1 t2 : ℚ), s.g_timer_started = false →
      elapsed_display s t1 = elapsed_display s t2) ∧
    (∀ t0 : ℚ, (game_loop_init t0).p_r = 1 ∧ (game_loop_init t0).p_c = 1 ∧
      (game_loop_init t0).g_timer_started = false ∧
      (game_loop_init t0).g_final_time_seconds = 0) := by
  refine ⟨?_, fun _ _ _ _ => rfl, ?_, fun _ => ⟨rfl, rfl, rfl, rfl⟩⟩
  · intro maze now s input dd hc hb hf
    have hw : maze.cell (s.p_r + dd.1, s.p_c + dd.2) ≠ Cell.wall := by
      rw [hf]; exact fun h => Cell.noConfusion h
    simp only [loop_step, game_loop_step,
      handle_input_accepted maze now s input dd hc hb hw, hf]
    norm_num
  · intro s t1 t2 hs
    simp [elapsed_display, hs]

/-- Witness for C9 (amended): the win move of the counterexample scenario.
-/
theorem C9_win_latches_and_freezes_witness :
    classify 'd' = some (0, 1) ∧
    inBoundsPos demo_grid2 (demo_prewin.p_r + 0, demo_prewin.p_c + 1) ∧
    demo_grid2.cell (demo_prewin.p_r + 0, demo_prewin.p_c + 1) = Cell.finish ∧
    loop_step demo_grid2 10 (LoopState.playing demo_prewin) 'd' =
      (LoopState.wonExit {
          p_r := demo_prewin.p_r + 0, p_c := demo_prewin.p_c + 1,
          p_r_old := demo_prewin.p_r, p_c_old := demo_prewin.p_c,
          g_timer_started := false,
          g_start_time :=
            if demo_prewin.g_timer_started then demo_prewin.g_start_time
            else 10,
          g_final_time_seconds :=
            10 - (if demo_prewin.g_timer_started then demo_prewin.g_start_time
              else 10) },
        some 2) :=
  ⟨by decide, by decide, by decide,
    C9_win_latches_and_freezes.1 demo_grid2 10 demo_prewin 'd' (0, 1)
      (by decide) (by decide) (by decide)⟩

/-! ## Lemmas about directions, parities and cell sets -/

theorem mem_dirList {d : Pos} (h : d ∈ dirList) :
    d = (-2, 0) ∨ d = (2, 0) ∨ d = (0, -2) ∨ d = (0, 2) := by
  simpa [dirList] using h

theorem dirList_half {d : Pos} (h : d ∈ dirList) :
    (d.1 / 2, d.2 / 2) = (-1, 0) ∨ (d.1 / 2, d.2 / 2) = (1, 0) ∨
    (d.1 / 2, d.2 / 2) = (0, -1) ∨ (d.1 / 2, d.2 / 2) = (0, 1) := by
  rcases mem_dirList h with rfl | rfl | rfl | rfl <;> simp

theorem nodeP_step {p d : Pos} (hp : nodeP p) (hd : d ∈ dirList) :
    nodeP (p.1 + d.1, p.2 + d.2) := by
  obtain ⟨h1, h2⟩ := hp
  rcases mem_dirList hd with rfl | rfl | rfl | rfl <;>
    exact ⟨by omega, by omega⟩

theorem connP_mid {p d : Pos} (hp : nodeP p) (hd : d ∈ dirList) :
    connP (p.1 + d.1 / 2, p.2 + d.2 / 2) := by
  obtain ⟨h1, h2⟩ := hp
  rcases mem_dirList hd with rfl | rfl | rfl | rfl
  · exact Or.inr ⟨by omega, by omega⟩
  · exact Or.inr ⟨by omega, by omega⟩
  · exact Or.inl ⟨by omega, by omega⟩
  · exact Or.inl ⟨by omega, by omega⟩

theorem mid_ne_target {p d : Pos} (hd : d ∈ dirList) :
    (p.1 + d.1 / 2, p.2 + d.2 / 2) ≠ (p.1 + d.1, p.2 + d.2) := by
  rcases mem_dirList hd with rfl | rfl | rfl | rfl <;>
    · intro h
      rw [Prod.mk.injEq] at h
      omega

theorem self_ne_target {p d : Pos} (hd : d ∈ dirList) :
    p ≠ (p.1 + d.1, p.2 + d.2) := by
  obtain ⟨a, b⟩ := p
  rcases mem_dirList hd with rfl | rfl | rfl | rfl <;>
    · intro h
      rw [Prod.mk.injEq] at h
      omega

theorem self_ne_mid {p d : Pos} (hd : d ∈ dirList) :
    p ≠ (p.1 + d.1 / 2, p.2 + d.2 / 2) := by
  obtain ⟨a, b⟩ := p
  rcases mem_dirList hd with rfl | rfl | rfl | rfl <;>
    · intro h
      rw [Prod.mk.injEq] at h
      omega

theorem interior_mid {g : Grid} {p d : Pos} (hd : d ∈ dirList)
    (hp : interiorPos g p) (hn : interiorPos g (p.1 + d.1, p.2 + d.2)) :
    interiorPos g (p.1 + d.1 / 2, p.2 + d.2 / 2) := by
  obtain ⟨a1, a2, a3, a4⟩ := hp
  obtain ⟨b1, b2, b3, b4⟩ := hn
  rcases mem_dirList hd with rfl | rfl | rfl | rfl <;>
    · simp only at b1 b2 b3 b4 ⊢
      exact ⟨by omega, by omega, by omega, by omega⟩

theorem adj_self_mid {p d : Pos} (hd : d ∈ dirList) :
    adjPos p (p.1 + d.1 / 2, p.2 + d.2 / 2) := by
  rcases mem_dirList hd with rfl | rfl | rfl | rfl
  · exact Or.inr (Or.inl (by rw [Prod.mk.injEq]; omega))
  · exact Or.inl (by rw [Prod.mk.injEq]; omega)
  · exact Or.inr (Or.inr (Or.inr (by rw [Prod.mk.injEq]; omega)))
  · exact Or.inr (Or.inr (Or.inl (by rw [Prod.mk.injEq]; omega)))

theorem adj_mid_target {p d : Pos} (hd : d ∈ dirList) :
    adjPos (p.1 + d.1 / 2, p.2 + d.2 / 2) (p.1 + d.1, p.2 + d.2) := by
  rcases mem_dirList hd with rfl | rfl | rfl | rfl
  · exact Or.inr (Or.inl (by rw [Prod.mk.injEq]; omega))
  · exact Or.inl (by rw [Prod.mk.injEq]; omega)
  · exact Or.inr (Or.inr (Or.inr (by rw [Prod.mk.injEq]; omega)))
  · exact Or.inr (Or.inr (Or.inl (by rw [Prod.mk.injEq]; omega)))

theorem mem_gridCells {g : Grid} {p : Pos} :
    p ∈ gridCells g ↔ 0 ≤ p.1 ∧ p.1 ≤ g.height - 1 ∧ 0 ≤ p.2 ∧ p.2 ≤ g.width - 1 := by
  simp only [gridCells, Finset.mem_product, Finset.mem_Icc]
  tauto

theorem interior_mem_gridCells {g : Grid} {p : Pos} (h : interiorPos g p) :
    p ∈ gridCells g := by
  obtain ⟨h1, h2, h3, h4⟩ := h
  exact mem_gridCells.mpr ⟨by omega, by omega, by omega, by omega⟩

theorem interior_inBounds {g : Grid} {p : Pos} (h : interiorPos g p) :
    inBoundsPos g p := by
  obtain ⟨h1, h2, h3, h4⟩ := h
  exact ⟨by omega, by omega, by omega, by omega⟩

theorem not_node_and_conn {p : Pos} (hn : nodeP p) (hc : connP p) : False := by
  obtain ⟨h1, h2⟩ := hn
  rcases hc with ⟨h3, h4⟩ | ⟨h3, h4⟩ <;> omega

/-! ## Counting lemmas -/

theorem gridCells_set (g : Grid) (q : Pos) (v : Cell) :
    gridCells (g.set q v) = gridCells g := rfl

theorem card_filter_set_open (g : Grid) (q : Pos) (P : Pos → Prop)
    [DecidablePred P] (S : Finset Pos) (hq : q ∈ S)
    (hw : g.cell q = Cell.wall) :
    (Finset.filter (fun p => (g.set q Cell.path).cell p ≠ Cell.wall ∧ P p)
      S).card =
    (Finset.filter (fun p => g.cell p ≠ Cell.wall ∧ P p) S).card +
      (if P q then 1 else 0) := by
  by_cases hP : P q
  · rw [if_pos hP]
    have hins : Finset.filter
        (fun p => (g.set q Cell.path).cell p ≠ Cell.wall ∧ P p) S =
        insert q (Finset.filter (fun p => g.cell p ≠ Cell.wall ∧ P p)
          S) := by
      ext p
      simp only [Finset.mem_filter, Finset.mem_insert]
      constructor
      · rintro ⟨hmem, hcell, hPp⟩
        by_cases hpq : p = q
        · exact Or.inl hpq
        · rw [Grid.cell_set_other g Cell.path hpq] at hcell
          exact Or.inr ⟨hmem, hcell, hPp⟩
      · rintro (rfl | ⟨hmem, hcell, hPp⟩)
        · refine ⟨hq, ?_, hP⟩
          rw [Grid.cell_set_same]
          exact fun h => Cell.noConfusion h
        · refine ⟨hmem, ?_, hPp⟩
          by_cases hpq : p = q
          · rw [hpq, Grid.cell_set_same]; exact fun h => Cell.noConfusion h
          · rw [Grid.cell_set_other g Cell.path hpq]; exact hcell
    rw [hins, Finset.card_insert_of_not_mem]
    intro hmem
    rw [Finset.mem_filter] at hmem
    exact hmem.2.1 hw
  · rw [if_neg hP, Nat.add_zero]
    congr 1
    ext p
    simp only [Finset.mem_filter]
    constructor
    · rintro ⟨hmem, hcell, hPp⟩
      refine ⟨hmem, ?_, hPp⟩
      have hpq : p ≠ q := fun h => hP (h ▸ hPp)
      rw [Grid.cell_set_other g Cell.path hpq] at hcell
      exact hcell
    · rintro ⟨hmem, hcell, hPp⟩
      refine ⟨hmem, ?_, hPp⟩
      have hpq : p ≠ q := fun h => hP (h ▸ hPp)
      rw [Grid.cell_set_other g Cell.path hpq]
      exact hcell

theorem interiorRect_mem {g : Grid} {p : Pos} :
    p ∈ (Finset.Icc 1 (g.height - 2)) ×ˢ (Finset.Icc 1 (g.width - 2)) ↔
      interiorPos g p := by
  simp only [Finset.mem_product, Finset.mem_Icc, interiorPos]
  omega

theorem interiorWallCount_set_path_le (g : Grid) (q : Pos) :
    interiorWallCount (g.set q Cell.path) ≤ interiorWallCount g := by
  apply Finset.card_le_card
  intro p hp
  rw [Finset.mem_filter] at hp ⊢
  refine ⟨hp.1, ?_⟩
  have := hp.2
  by_cases hpq : p = q
  · rw [hpq, Grid.cell_set_same] at this
    exact absurd this (fun h => Cell.noConfusion h)
  · rw [Grid.cell_set_other g Cell.path hpq] at this
    exact this

theorem interiorWallCount_set_path_lt (g : Grid) {q : Pos}
    (hq : interiorPos g q) (hw : g.cell q = Cell.wall) :
    interiorWallCount (g.set q Cell.path) < interiorWallCount g := by
  apply Finset.card_lt_card
  constructor
  · intro p hp
    rw [Finset.mem_filter] at hp ⊢
    refine ⟨hp.1, ?_⟩
    have := hp.2
    by_cases hpq : p = q
    · rw [hpq, Grid.cell_set_same] at this
      exact absurd this (fun h => Cell.noConfusion h)
    · rw [Grid.cell_set_other g Cell.path hpq] at this
      exact this
  · intro hsub
    have hmem : q ∈ Finset.filter (fun p => g.cell p = Cell.wall)
        ((Finset.Icc 1 (g.height - 2)) ×ˢ (Finset.Icc 1 (g.width - 2))) := by
      rw [Finset.mem_filter]
      exact ⟨interiorRect_mem.mpr hq, hw⟩
    have := hsub hmem
    rw [Finset.mem_filter, Grid.cell_set_same] at this
    exact Cell.noConfusion this.2

theorem interiorWallCount_pos (g : Grid) {q : Pos}
    (hq : interiorPos g q) (hw : g.cell q = Cell.wall) :
    1 ≤ interiorWallCount g := by
  rw [Nat.one_le_iff_ne_zero]
  intro h0
  rw [interiorWallCount, Finset.card_eq_zero] at h0
  have : q ∈ (∅ : Finset Pos) := by
    rw [← h0, Finset.mem_filter]
    exact ⟨interiorRect_mem.mpr hq, hw⟩
  exact absurd this (Finset.not_mem_empty q)

/-! ## Unconditional structural lemmas about `carveAux` -/

theorem carveAux_dims (shuffle : Grid → Pos → List Pos) :
    ∀ (fuel : ℕ) (g : Grid) (p : Pos) (ds : List Pos),
      (carveAux shuffle fuel g p ds).height = g.height ∧
      (carveAux shuffle fuel g p ds).width = g.width := by
  intro fuel
  induction fuel with
  | zero => intro g p ds; exact ⟨rfl, rfl⟩
  | succ fuel ih =>
    intro g p ds
    cases ds with
    | nil => exact ⟨rfl, rfl⟩
    | cons d rest =>
      rw [carveAux]
      by_cases hc : interiorPos g (p.1 + d.1, p.2 + d.2) ∧
          g.cell (p.1 + d.1, p.2 + d.2) = Cell.wall
      · rw [if_pos hc]
        obtain ⟨h1, h2⟩ := ih (carveAux shuffle fuel
          ((g.set (p.1 + d.1 / 2, p.2 + d.2 / 2) Cell.path).set
            (p.1 + d.1, p.2 + d.2) Cell.path)
          (p.1 + d.1, p.2 + d.2)
          (shuffle ((g.set (p.1 + d.1 / 2, p.2 + d.2 / 2) Cell.path).set
            (p.1 + d.1, p.2 + d.2) Cell.path) (p.1 + d.1, p.2 + d.2)))
          p rest
        obtain ⟨h3, h4⟩ := ih ((g.set (p.1 + d.1 / 2, p.2 + d.2 / 2)
          Cell.path).set (p.1 + d.1, p.2 + d.2) Cell.path)
          (p.1 + d.1, p.2 + d.2)
          (shuffle ((g.set (p.1 + d.1 / 2, p.2 + d.2 / 2) Cell.path).set
            (p.1 + d.1, p.2 + d.2) Cell.path) (p.1 + d.1, p.2 + d.2))
        constructor
        · rw [h1, h3]; rfl
        · rw [h2, h4]; rfl
      · rw [if_neg hc]
        exact ih g p rest

theorem carveAux_cells (shuffle : Grid → Pos → List Pos) :
    ∀ (fuel : ℕ) (g : Grid) (p : Pos) (ds : List Pos) (q : Pos),
      (carveAux shuffle fuel g p ds).cell q = g.cell q ∨
      (carveAux shuffle fuel g p ds).cell q = Cell.path := by
  intro fuel
  induction fuel with
  | zero => intro g p ds q; exact Or.inl rfl
  | succ fuel ih =>
    intro g p ds q
    cases ds with
    | nil => exact Or.inl rfl
    | cons d rest =>
      rw [carveAux]
      by_cases hc : interiorPos g (p.1 + d.1, p.2 + d.2) ∧
          g.cell (p.1 + d.1, p.2 + d.2) = Cell.wall
      · rw [if_pos hc]
        set mid : Pos := (p.1 + d.1 / 2, p.2 + d.2 / 2) with hmid
        set n : Pos := (p.1 + d.1, p.2 + d.2) with hn
        set g2 : Grid := (g.set mid Cell.path).set n Cell.path with hg2
        set g3 : Grid := carveAux shuffle fuel g2 n (shuffle g2 n) with hg3
        have h2 : g2.cell q = g.cell q ∨ g2.cell q = Cell.path := by
          by_cases hq1 : q = n
          · subst hq1; right; rw [hg2, Grid.cell_set_same]
          · by_cases hq2 : q = mid
            · subst hq2
              right
              rw [hg2, Grid.cell_set_other _ Cell.path hq1, Grid.cell_set_same]
            · left
              rw [hg2, Grid.cell_set_other _ Cell.path hq1,
                Grid.cell_set_other _ Cell.path hq2]
        have h3 : g3.cell q = g2.cell q ∨ g3.cell q = Cell.path :=
          ih g2 n (shuffle g2 n) q
        have h4 := ih g3 p rest q
        rcases h4 with h4 | h4
        · rw [h4]
          rcases h3 with h3 | h3
          · rw [h3]; exact h2
          · right; exact h3
        · right; exact h4
      · rw [if_neg hc]
        exact ih g p rest q

/-- Non-`Wall` cells stay non-`Wall` through carving. -/
theorem carveAux_nonwall_mono (shuffle : Grid → Pos → List Pos)
    (fuel : ℕ) (g : Grid) (p : Pos) (ds : List Pos) (q : Pos)
    (h : g.cell q ≠ Cell.wall) :
    (carveAux shuffle fuel g p ds).cell q ≠ Cell.wall := by
  rcases carveAux_cells shuffle fuel g p ds q with h1 | h1 <;> rw [h1]
  · exact h
  · exact fun hh => Cell.noConfusion hh

/-- Carving writes only interior cells (when started from an interior cell).
-/
theorem carveAux_outside (shuffle : Grid → Pos → List Pos) :
    ∀ (fuel : ℕ) (g : Grid) (p : Pos) (ds : List Pos) (q : Pos),
      interiorPos g p → ¬ interiorPos g q →
      (carveAux shuffle fuel g p ds).cell q = g.cell q := by
  intro fuel
  induction fuel with
  | zero => intro g p ds q _ _; rfl
  | succ fuel ih =>
    intro g p ds q hp hq
    cases ds with
    | nil => rfl
    | cons d rest =>
      rw [carveAux]
      by_cases hc : interiorPos g (p.1 + d.1, p.2 + d.2) ∧
          g.cell (p.1 + d.1, p.2 + d.2) = Cell.wall
      · rw [if_pos hc]
        set mid : Pos := (p.1 + d.1 / 2, p.2 + d.2 / 2) with hmid
        set n : Pos := (p.1 + d.1, p.2 + d.2) with hn
        set g2 : Grid := (g.set mid Cell.path).set n Cell.path with hg2
        set g3 : Grid := carveAux shuffle fuel g2 n (shuffle g2 n) with hg3
        have hdm : interiorPos g mid := by
          rw [hmid]
          obtain ⟨a1, a2, a3, a4⟩ := hp
          obtain ⟨b1, b2, b3, b4⟩ := hc.1
          simp only at b1 b2 b3 b4
          refine ⟨?_, ?_, ?_, ?_⟩ <;> dsimp only <;> omega
        have hqn : q ≠ n := fun h => hq (h ▸ hc.1)
        have hqm : q ≠ mid := fun h => hq (h ▸ hdm)
        have hg2c : g2.cell q = g.cell q := by
          rw [hg2, Grid.cell_set_other _ Cell.path hqn,
            Grid.cell_set_other _ Cell.path hqm]
        have hd2 := carveAux_dims shuffle fuel g2 n (shuffle g2 n)
        have h3 : g3.cell q = g2.cell q := by
          rw [hg3]
          apply ih g2 n (shuffle g2 n) q hc.1 hq
        have h4 : (carveAux shuffle fuel g3 p rest).cell q = g3.cell q := by
          apply ih g3 p rest q
          · rw [interiorPos, hd2.1, hd2.2]
            exact hp
          · rw [interiorPos, hd2.1, hd2.2]
            exact hq
        rw [h4, h3, hg2c]
      · rw [if_neg hc]
        exact ih g p rest q hp hq

/-! ## Reachability lemmas -/

theorem reachable_trans {g : Grid} {a b c : Pos}
    (h1 : reachable g a b) (h2 : reachable g b c) : reachable g a c := by
  induction h2 with
  | refl => exact h1
  | tail _ hadj hb hw ih => exact reachable.tail ih hadj hb hw

theorem reachable_mono {g g' : Grid} (hh : g'.height = g.height)
    (hw : g'.width = g.width)
    (hcell : ∀ q : Pos, g.cell q ≠ Cell.wall → g'.cell q ≠ Cell.wall)
    {a b : Pos} (h : reachable g a b) : reachable g' a b := by
  induction h with
  | refl => exact reachable.refl
  | tail _ hadj hb hnw ih =>
    refine reachable.tail ih hadj ?_ (hcell _ hnw)
    rw [inBoundsPos, hh, hw]
    exact hb

/-- Reachability only depends on which cells are walls. -/
theorem reachable_wall_congr {g g' : Grid} (hh : g'.height = g.height)
    (hw : g'.width = g.width)
    (hcell : ∀ q : Pos, g.cell q = Cell.wall ↔ g'.cell q = Cell.wall)
    {a b : Pos} (h : reachable g a b) : reachable g' a b :=
  reachable_mono hh hw (fun q hq h' => hq ((hcell q).mpr h')) h

theorem reachable_no_wall {g : Grid} {a b : Pos}
    (ha : g.cell a ≠ Cell.wall) (h : reachable g a b) :
    g.cell b ≠ Cell.wall := by
  induction h with
  | refl => exact ha
  | tail _ _ _ hnw _ => exact hnw

/-- `NbrsOpen` transfers along grids with equal dimensions that keep
non-`Wall` cells non-`Wall`. -/
theorem nbrsOpen_mono {g g' : Grid} (hh : g'.height = g.height)
    (hw : g'.width = g.width)
    (hcell : ∀ q : Pos, g.cell q ≠ Cell.wall → g'.cell q ≠ Cell.wall)
    {p : Pos} (h : NbrsOpen g p) : NbrsOpen g' p := by
  intro d hd hint
  apply hcell
  apply h d hd
  rw [interiorPos, hh, hw] at hint
  exact hint

/-! ## Helpers for the main carving induction -/

theorem set_nonwall_mono {g : Grid} {q x : Pos} (h : g.cell q ≠ Cell.wall) :
    (g.set x Cell.path).cell q ≠ Cell.wall := by
  by_cases hqx : q = x
  · rw [hqx, Grid.cell_set_same]
    exact fun hh => Cell.noConfusion hh
  · rw [Grid.cell_set_other g Cell.path hqx]
    exact h

theorem interiorWallCount_mono {g g' : Grid} (hh : g'.height = g.height)
    (hw : g'.width = g.width)
    (hsub : ∀ q : Pos, g'.cell q = Cell.wall → g.cell q = Cell.wall) :
    interiorWallCount g' ≤ interiorWallCount g := by
  rw [interiorWallCount, interiorWallCount, hh, hw]
  apply Finset.card_le_card
  intro p hp
  rw [Finset.mem_filter] at hp ⊢
  exact ⟨hp.1, hsub p hp.2⟩

/-- If the two-step neighbour is still `Wall`, so is the connecting cell
midway (otherwise `ConnectorClosed` would force the neighbour open). -/
theorem mid_wall_of_target_wall {g : Grid} {p d : Pos} (hd : d ∈ dirList)
    (hp : nodeP p) (h2 : ConnectorClosed g)
    (hn : g.cell (p.1 + d.1, p.2 + d.2) = Cell.wall) :
    g.cell (p.1 + d.1 / 2, p.2 + d.2 / 2) = Cell.wall := by
  obtain ⟨a, b⟩ := p
  obtain ⟨hpa, hpb⟩ := hp
  simp only at hpa hpb
  by_contra hmw
  rcases mem_dirList hd with rfl | rfl | rfl | rfl
  · have := (h2.1 (a + (-2 : ℤ) / 2, b + (0 : ℤ) / 2) (by dsimp only; omega)
      (by dsimp only; omega) hmw).1
    have he : ((a + (-2 : ℤ) / 2, b + (0 : ℤ) / 2).1 - 1,
        (a + (-2 : ℤ) / 2, b + (0 : ℤ) / 2).2) = ((a + -2, b + 0) : Pos) := by
      rw [Prod.mk.injEq]
      constructor <;> [omega; rfl]
    rw [he] at this
    exact this hn
  · have := (h2.1 (a + (2 : ℤ) / 2, b + (0 : ℤ) / 2) (by dsimp only; omega)
      (by dsimp only; omega) hmw).2
    have he : ((a + (2 : ℤ) / 2, b + (0 : ℤ) / 2).1 + 1,
        (a + (2 : ℤ) / 2, b + (0 : ℤ) / 2).2) = ((a + 2, b + 0) : Pos) := by
      rw [Prod.mk.injEq]
      constructor <;> [omega; rfl]
    rw [he] at this
    exact this hn
  · have := (h2.2 (a + (0 : ℤ) / 2, b + (-2 : ℤ) / 2) (by dsimp only; omega)
      (by dsimp only; omega) hmw).1
    have he : ((a + (0 : ℤ) / 2, b + (-2 : ℤ) / 2).1,
        (a + (0 : ℤ) / 2, b + (-2 : ℤ) / 2).2 - 1) = ((a + 0, b + -2) : Pos) := by
      rw [Prod.mk.injEq]
      constructor <;> [rfl; omega]
    rw [he] at this
    exact this hn
  · have := (h2.2 (a + (0 : ℤ) / 2, b + (2 : ℤ) / 2) (by dsimp only; omega)
      (by dsimp only; omega) hmw).2
    have he : ((a + (0 : ℤ) / 2, b + (2 : ℤ) / 2).1,
        (a + (0 : ℤ) / 2, b + (2 : ℤ) / 2).2 + 1) = ((a + 0, b + 2) : Pos) := by
      rw [Prod.mk.injEq]
      constructor <;> [rfl; omega]
    rw [he] at this
    exact this hn

theorem noEvenEven_update {g : Grid} {p d : Pos} (hd : d ∈ dirList)
    (hp : nodeP p) (h1 : NoEvenEven g) :
    NoEvenEven ((g.set (p.1 + d.1 / 2, p.2 + d.2 / 2) Cell.path).set
      (p.1 + d.1, p.2 + d.2) Cell.path) := by
  intro q hq1 hq2
  have hqn : q ≠ (p.1 + d.1, p.2 + d.2) := by
    intro h
    obtain ⟨hp1, hp2⟩ := hp
    rcases mem_dirList hd with rfl | rfl | rfl | rfl <;>
      · subst h
        dsimp only at hq1 hq2
        omega
  have hqm : q ≠ (p.1 + d.1 / 2, p.2 + d.2 / 2) := by
    intro h
    obtain ⟨hp1, hp2⟩ := hp
    rcases mem_dirList hd with rfl | rfl | rfl | rfl <;>
      · subst h
        dsimp only at hq1 hq2
        omega
  rw [Grid.cell_set_other _ Cell.path hqn, Grid.cell_set_other _ Cell.path hqm]
  exact h1 q hq1 hq2

theorem connectorClosed_update {g : Grid} {p d : Pos} (hd : d ∈ dirList)
    (hp : nodeP p) (hpopen : g.cell p ≠ Cell.wall) (h2 : ConnectorClosed g) :
    ConnectorClosed ((g.set (p.1 + d.1 / 2, p.2 + d.2 / 2) Cell.path).set
      (p.1 + d.1, p.2 + d.2) Cell.path) := by
  have hmono : ∀ q : Pos, g.cell q ≠ Cell.wall →
      ((g.set (p.1 + d.1 / 2, p.2 + d.2 / 2) Cell.path).set
        (p.1 + d.1, p.2 + d.2) Cell.path).cell q ≠ Cell.wall :=
    fun q hq => set_nonwall_mono (set_nonwall_mono hq)
  have hnval : ((g.set (p.1 + d.1 / 2, p.2 + d.2 / 2) Cell.path).set
      (p.1 + d.1, p.2 + d.2) Cell.path).cell (p.1 + d.1, p.2 + d.2) =
      Cell.path := Grid.cell_set_same _ _ _
  have hmval : ((g.set (p.1 + d.1 / 2, p.2 + d.2 / 2) Cell.path).set
      (p.1 + d.1, p.2 + d.2) Cell.path).cell (p.1 + d.1 / 2, p.2 + d.2 / 2) =
      Cell.path := by
    rw [Grid.cell_set_other _ Cell.path (mid_ne_target hd), Grid.cell_set_same]
  obtain ⟨a, b⟩ := p
  obtain ⟨hpa, hpb⟩ := hp
  simp only at hpa hpb
  constructor
  · intro m hm1 hm2 hmw
    by_cases hq2 : m = ((a, b).1 + d.1 / 2, (a, b).2 + d.2 / 2)
    · subst hq2
      rcases mem_dirList hd with rfl | rfl | rfl | rfl <;> dsimp only at hm1 hm2 ⊢
      · constructor
        · have he : ((a + (-2 : ℤ) / 2) - 1, b + (0 : ℤ) / 2) =
              ((a + -2, b + 0) : Pos) := by
            rw [Prod.mk.injEq]; omega
          rw [he]; rw [hnval]; exact fun h => Cell.noConfusion h
        · have he : ((a + (-2 : ℤ) / 2) + 1, b + (0 : ℤ) / 2) = ((a, b) : Pos) := by
            rw [Prod.mk.injEq]; omega
          rw [he]; exact hmono (a, b) hpopen
      · constructor
        · have he : ((a + (2 : ℤ) / 2) - 1, b + (0 : ℤ) / 2) = ((a, b) : Pos) := by
            rw [Prod.mk.injEq]; omega
          rw [he]; exact hmono (a, b) hpopen
        · have he : ((a + (2 : ℤ) / 2) + 1, b + (0 : ℤ) / 2) =
              ((a + 2, b + 0) : Pos) := by
            rw [Prod.mk.injEq]; omega
          rw [he]; rw [hnval]; exact fun h => Cell.noConfusion h
      · exact absurd hm1 (by omega)
      · exact absurd hm1 (by omega)
    · by_cases hq1 : m = ((a, b).1 + d.1, (a, b).2 + d.2)
      · exfalso
        have hnode : nodeP ((a, b).1 + d.1, (a, b).2 + d.2) :=
          nodeP_step ⟨hpa, hpb⟩ hd
        rw [← hq1] at hnode
        exact not_node_and_conn hnode (Or.inr ⟨hm1, hm2⟩)
      · rw [Grid.cell_set_other _ Cell.path hq1,
          Grid.cell_set_other _ Cell.path hq2] at hmw
        obtain ⟨hl, hr⟩ := h2.1 m hm1 hm2 hmw
        exact ⟨hmono _ hl, hmono _ hr⟩
  · intro m hm1 hm2 hmw
    by_cases hq2 : m = ((a, b).1 + d.1 / 2, (a, b).2 + d.2 / 2)
    · subst hq2
      rcases mem_dirList hd with rfl | rfl | rfl | rfl <;> dsimp only at hm1 hm2 ⊢
      · exact absurd hm1 (by omega)
      · exact absurd hm1 (by omega)
      · constructor
        · have he : (a + (0 : ℤ) / 2, (b + (-2 : ℤ) / 2) - 1) =
              ((a + 0, b + -2) : Pos) := by
            rw [Prod.mk.injEq]; omega
          rw [he]; rw [hnval]; exact fun h => Cell.noConfusion h
        · have he : (a + (0 : ℤ) / 2, (b + (-2 : ℤ) / 2) + 1) = ((a, b) : Pos) := by
            rw [Prod.mk.injEq]; omega
          rw [he]; exact hmono (a, b) hpopen
      · constructor
        · have he : (a + (0 : ℤ) / 2, (b + (2 : ℤ) / 2) - 1) = ((a, b) : Pos) := by
            rw [Prod.mk.injEq]; omega
          rw [he]; exact hmono (a, b) hpopen
        · have he : (a + (0 : ℤ) / 2, (b + (2 : ℤ) / 2) + 1) =
              ((a + 0, b + 2) : Pos) := by
            rw [Prod.mk.injEq]; omega
          rw [he]; rw [hnval]; exact fun h => Cell.noConfusion h
    · by_cases hq1 : m = ((a, b).1 + d.1, (a, b).2 + d.2)
      · exfalso
        have hnode : nodeP ((a, b).1 + d.1, (a, b).2 + d.2) :=
          nodeP_step ⟨hpa, hpb⟩ hd
        rw [← hq1] at hnode
        exact not_node_and_conn hnode (Or.inl ⟨hm1, hm2⟩)
      · rw [Grid.cell_set_other _ Cell.path hq1,
          Grid.cell_set_other _ Cell.path hq2] at hmw
        obtain ⟨hl, hr⟩ := h2.2 m hm1 hm2 hmw
        exact ⟨hmono _ hl, hmono _ hr⟩

/-- Opening one connecting cell and one node cell raises both counts by 1.
-/
theorem counts_update {g : Grid} {p d : Pos} (hd : d ∈ dirList)
    (hp : nodeP p) (hpi : interiorPos g p)
    (hni : interiorPos g (p.1 + d.1, p.2 + d.2))
    (hmw : g.cell (p.1 + d.1 / 2, p.2 + d.2 / 2) = Cell.wall)
    (hnw : g.cell (p.1 + d.1, p.2 + d.2) = Cell.wall) :
    nodeCount ((g.set (p.1 + d.1 / 2, p.2 + d.2 / 2) Cell.path).set
      (p.1 + d.1, p.2 + d.2) Cell.path) = nodeCount g + 1 ∧
    connCount ((g.set (p.1 + d.1 / 2, p.2 + d.2 / 2) Cell.path).set
      (p.1 + d.1, p.2 + d.2) Cell.path) = connCount g + 1 := by
  have hmmem : (p.1 + d.1 / 2, p.2 + d.2 / 2) ∈ gridCells g :=
    interior_mem_gridCells (interior_mid hd hpi hni)
  have hnmem : (p.1 + d.1, p.2 + d.2) ∈ gridCells g :=
    interior_mem_gridCells hni
  have hnw1 : (g.set (p.1 + d.1 / 2, p.2 + d.2 / 2) Cell.path).cell
      (p.1 + d.1, p.2 + d.2) = Cell.wall := by
    rw [Grid.cell_set_other _ Cell.path (Ne.symm (mid_ne_target hd))]
    exact hnw
  have hmid_conn : connP (p.1 + d.1 / 2, p.2 + d.2 / 2) := connP_mid hp hd
  have hn_node : nodeP (p.1 + d.1, p.2 + d.2) := nodeP_step hp hd
  constructor
  · rw [nodeCount, nodeCount]
    have h1 := card_filter_set_open (g.set (p.1 + d.1 / 2, p.2 + d.2 / 2)
      Cell.path) (p.1 + d.1, p.2 + d.2) nodeP (gridCells g) hnmem hnw1
    have h2 := card_filter_set_open g (p.1 + d.1 / 2, p.2 + d.2 / 2) nodeP
      (gridCells g) hmmem hmw
    rw [if_pos hn_node] at h1
    rw [if_neg (fun hc => not_node_and_conn hc hmid_conn)] at h2
    rw [gridCells_set, gridCells_set, h1, h2]
  · rw [connCount, connCount]
    have h1 := card_filter_set_open (g.set (p.1 + d.1 / 2, p.2 + d.2 / 2)
      Cell.path) (p.1 + d.1, p.2 + d.2) connP (gridCells g) hnmem hnw1
    have h2 := card_filter_set_open g (p.1 + d.1 / 2, p.2 + d.2 / 2) connP
      (gridCells g) hmmem hmw
    rw [if_neg (fun hc => not_node_and_conn hn_node hc)] at h1
    rw [if_pos hmid_conn] at h2
    rw [gridCells_set, gridCells_set, h1, h2]

theorem carvePost_id {g : Grid} (p : Pos) (h1 : NoEvenEven g)
    (h2 : ConnectorClosed g) : CarvePost g g p [] :=
  { hheight := rfl
    hwidth := rfl
    evol := fun _ => Or.inl rfl
    outside := fun _ _ => rfl
    inv1 := h1
    inv2 := h2
    balance := rfl
    frontier := fun d hd => absurd hd (List.not_mem_nil d)
    hered := fun _ _ hw hnw => absurd hw hnw
    reach := fun _ hw hnw => absurd hw hnw }

/-- The main induction: one `carveAux` run preserves the carving invariants,
opens node/connector cells in lock step, finishes the frontier of `p`,
finishes every node it opens, and connects everything it opens to `p`. -/
theorem carveAux_spec (shuffle : Grid → Pos → List Pos)
    (hsh : ShuffleOK shuffle) :
    ∀ (fuel : ℕ) (g : Grid) (p : Pos) (ds : List Pos),
      CarvePre fuel g p ds →
      CarvePost g (carveAux shuffle fuel g p ds) p ds := by
  intro fuel
  induction fuel with
  | zero =>
    intro g p ds pre
    have hds : ds = [] := by
      have := pre.fuelok
      have hlen : ds.length = 0 := by omega
      exact List.eq_nil_of_length_eq_zero hlen
    subst hds
    exact carvePost_id p pre.inv1 pre.inv2
  | succ fuel ih =>
    intro g p ds pre
    cases ds with
    | nil => exact carvePost_id p pre.inv1 pre.inv2
    | cons d rest =>
      have hd : d ∈ dirList := pre.dsok d (List.mem_cons_self d rest)
      have hdrest : ∀ d' ∈ rest, d' ∈ dirList :=
        fun d' h => pre.dsok d' (List.mem_cons_of_mem d h)
      rw [carveAux]
      by_cases hcond : interiorPos g (p.1 + d.1, p.2 + d.2) ∧
          g.cell (p.1 + d.1, p.2 + d.2) = Cell.wall
      case neg =>
        rw [if_neg hcond]
        have pre' : CarvePre fuel g p rest :=
          { bw := pre.bw, inv1 := pre.inv1, inv2 := pre.inv2,
            node := pre.node, pint := pre.pint, popen := pre.popen,
            fuelok := by have := pre.fuelok; simp only [List.length_cons] at this; omega,
            dsok := hdrest }
        have post := ih g p rest pre'
        exact
          { hheight := post.hheight
            hwidth := post.hwidth
            evol := post.evol
            outside := post.outside
            inv1 := post.inv1
            inv2 := post.inv2
            balance := post.balance
            frontier := by
              intro d' hd' hint
              rcases List.mem_cons.mp hd' with rfl | hmem
              · have hnw : g.cell (p.1 + d'.1, p.2 + d'.2) ≠ Cell.wall := by
                  intro hw
                  exact hcond ⟨hint, hw⟩
                rcases post.evol (p.1 + d'.1, p.2 + d'.2) with he | he
                · rw [he]; exact hnw
                · rw [he.1]; exact fun hh => Cell.noConfusion hh
              · exact post.frontier d' hmem hint
            hered := post.hered
            reach := post.reach }
      case pos =>
        rw [if_pos hcond]
        set mid : Pos := (p.1 + d.1 / 2, p.2 + d.2 / 2) with hmid
        set n : Pos := (p.1 + d.1, p.2 + d.2) with hn
        set g2 : Grid := (g.set mid Cell.path).set n Cell.path with hg2
        have hint_n : interiorPos g n := hcond.1
        have hwall_n : g.cell n = Cell.wall := hcond.2
        have hint_mid : interiorPos g mid := interior_mid hd pre.pint hint_n
        have hwall_mid : g.cell mid = Cell.wall :=
          mid_wall_of_target_wall hd pre.node pre.inv2 hwall_n
        have hmn : mid ≠ n := mid_ne_target hd
        have hpm : p ≠ mid := self_ne_mid hd
        have hpn : p ≠ n := self_ne_target hd
        have hg2n : g2.cell n = Cell.path := Grid.cell_set_same _ _ _
        have hg2mid : g2.cell mid = Cell.path := by
          rw [hg2, Grid.cell_set_other _ Cell.path hmn, Grid.cell_set_same]
        have hg2other : ∀ q : Pos, q ≠ mid → q ≠ n → g2.cell q = g.cell q := by
          intro q h1 h2
          rw [hg2, Grid.cell_set_other _ Cell.path h2,
            Grid.cell_set_other _ Cell.path h1]
        have hg2p : g2.cell p = g.cell p := hg2other p hpm hpn
        have e12 : ∀ q : Pos, g2.cell q = g.cell q ∨
            (g2.cell q = Cell.path ∧ g.cell q = Cell.wall) := by
          intro q
          by_cases h1 : q = mid
          · subst h1; right; exact ⟨hg2mid, hwall_mid⟩
          by_cases h2 : q = n
          · subst h2; right; exact ⟨hg2n, hwall_n⟩
          · left; exact hg2other q h1 h2
        have hbw2 : ∀ q : Pos, g2.cell q = Cell.wall ∨ g2.cell q = Cell.path := by
          intro q
          rcases e12 q with he | he
          · rw [he]; exact pre.bw q
          · right; exact he.1
        have hcnt2 : interiorWallCount g2 < interiorWallCount g := by
          have hA : interiorWallCount (g.set mid Cell.path) ≤
              interiorWallCount g := interiorWallCount_set_path_le g mid
          have hB : interiorWallCount g2 <
              interiorWallCount (g.set mid Cell.path) := by
            rw [hg2]
            apply interiorWallCount_set_path_lt (g.set mid Cell.path)
            · exact hint_n
            · rw [Grid.cell_set_other _ Cell.path (Ne.symm hmn)]
              exact hwall_n
          omega
        have hlen4 : (shuffle g2 n).length = 4 := by
          have := (hsh g2 n).length_eq
          simpa [dirList] using this
        have pre2 : CarvePre fuel g2 n (shuffle g2 n) :=
          { bw := hbw2
            inv1 := noEvenEven_update hd pre.node pre.inv1
            inv2 := connectorClosed_update hd pre.node pre.popen pre.inv2
            node := nodeP_step pre.node hd
            pint := hint_n
            popen := by rw [hg2n]; exact fun h => Cell.noConfusion h
            fuelok := by
              have := pre.fuelok
              simp only [List.length_cons] at this
              rw [hlen4]
              omega
            dsok := fun d' h => (hsh g2 n).mem_iff.mp h }
        have post2 := ih g2 n (shuffle g2 n) pre2
        set g3 : Grid := carveAux shuffle fuel g2 n (shuffle g2 n) with hg3
        have hg3h : g3.height = g.height := post2.hheight
        have hg3w : g3.width = g.width := post2.hwidth
        have e23 : ∀ q : Pos, g3.cell q = g2.cell q ∨
            (g3.cell q = Cell.path ∧ g2.cell q = Cell.wall) := post2.evol
        have hcnt3 : interiorWallCount g3 ≤ interiorWallCount g2 := by
          apply interiorWallCount_mono post2.hheight post2.hwidth
          intro q hq
          rcases e23 q with he | he
          · rw [← he]; exact hq
          · rw [he.1] at hq; exact absurd hq (fun h => Cell.noConfusion h)
        have pre3 : CarvePre fuel g3 p rest :=
          { bw := by
              intro q
              rcases e23 q with he | he
              · rw [he]; exact hbw2 q
              · right; exact he.1
            inv1 := post2.inv1
            inv2 := post2.inv2
            node := pre.node
            pint := by
              rw [interiorPos, hg3h, hg3w]
              exact pre.pint
            popen := by
              apply carveAux_nonwall_mono
              rw [hg2p]
              exact pre.popen
            fuelok := by
              have := pre.fuelok
              simp only [List.length_cons] at this
              omega
            dsok := hdrest }
        have post3 := ih g3 p rest pre3
        set gF : Grid := carveAux shuffle fuel g3 p rest with hgF
        have hgFh : gF.height = g.height := by rw [post3.hheight]; exact hg3h
        have hgFw : gF.width = g.width := by rw [post3.hwidth]; exact hg3w
        have e34 : ∀ q : Pos, gF.cell q = g3.cell q ∨
            (gF.cell q = Cell.path ∧ g3.cell q = Cell.wall) := post3.evol
        have e14 : ∀ q : Pos, gF.cell q = g.cell q ∨
            (gF.cell q = Cell.path ∧ g.cell q = Cell.wall) := by
          intro q
          rcases e34 q with h4 | h4
          · rcases e23 q with h3 | h3
            · rcases e12 q with h2 | h2
              · left; rw [h4, h3, h2]
              · right; rw [h4, h3]; exact h2
            · right
              rcases e12 q with h2 | h2
              · exact ⟨by rw [h4]; exact h3.1, by rw [← h2]; exact h3.2⟩
              · exact ⟨by rw [h4]; exact h3.1, h2.2⟩
          · right
            refine ⟨h4.1, ?_⟩
            rcases e23 q with h3 | h3
            · rcases e12 q with h2 | h2
              · rw [← h2, ← h3]; exact h4.2
              · rw [h3] at h4; rw [h2.1] at h4
                exact absurd h4.2 (fun h => Cell.noConfusion h)
            · rcases e12 q with h2 | h2
              · rw [← h2]; exact h3.2
              · rw [h2.1] at h3
                exact absurd h3.2 (fun h => Cell.noConfusion h)
        have hnonwall_34 : ∀ q : Pos, g3.cell q ≠ Cell.wall →
            gF.cell q ≠ Cell.wall := by
          intro q h
          exact carveAux_nonwall_mono shuffle fuel g3 p rest q h
        have hnonwall_24 : ∀ q : Pos, g2.cell q ≠ Cell.wall →
            gF.cell q ≠ Cell.wall := by
          intro q h
          apply hnonwall_34
          exact carveAux_nonwall_mono shuffle fuel g2 n (shuffle g2 n) q h
        have hmidF : gF.cell mid ≠ Cell.wall := by
          apply hnonwall_24
          rw [hg2mid]
          exact fun h => Cell.noConfusion h
        have hnF : gF.cell n ≠ Cell.wall := by
          apply hnonwall_24
          rw [hg2n]
          exact fun h => Cell.noConfusion h
        have hbmid : inBoundsPos gF mid := by
          apply interior_inBounds
          rw [interiorPos, hgFh, hgFw]
          exact hint_mid
        have hbn : inBoundsPos gF n := by
          apply interior_inBounds
          rw [interiorPos, hgFh, hgFw]
          exact hint_n
        have r_pm : reachable gF p mid :=
          reachable.tail reachable.refl (adj_self_mid hd) hbmid hmidF
        have r_pn : reachable gF p n :=
          reachable.tail r_pm (adj_mid_target hd) hbn hnF
        exact
          { hheight := hgFh
            hwidth := hgFw
            evol := e14
            outside := by
              intro q hq
              have hqm : q ≠ mid := fun h => hq (h ▸ hint_mid)
              have hqn : q ≠ n := fun h => hq (h ▸ hint_n)
              have o34 : gF.cell q = g3.cell q := by
                apply post3.outside
                rw [interiorPos, hg3h, hg3w]
                exact hq
              have o23 : g3.cell q = g2.cell q := post2.outside q hq
              rw [o34, o23]
              exact hg2other q hqm hqn
            inv1 := post3.inv1
            inv2 := post3.inv2
            balance := by
              have hc := counts_update hd pre.node pre.pint hint_n
                hwall_mid hwall_n
              have hb2 := post2.balance
              have hb3 := post3.balance
              rw [← hg2] at hc
              omega
            frontier := by
              intro d' hd' hint
              rcases List.mem_cons.mp hd' with rfl | hmem
              · exact hnF
              · apply post3.frontier d' hmem
                rw [interiorPos, hg3h, hg3w]
                exact hint
            hered := by
              intro q hqnode hqwall hqopen
              by_cases h3q : g3.cell q = Cell.wall
              · exact post3.hered q hqnode h3q hqopen
              · have hNF : NbrsOpen g3 q → NbrsOpen gF q := by
                  apply nbrsOpen_mono post3.hheight post3.hwidth
                  intro x hx
                  exact hnonwall_34 x hx
                by_cases h2q : g2.cell q = Cell.wall
                · exact hNF (post2.hered q hqnode h2q h3q)
                · have hqmn : q = mid ∨ q = n := by
                    by_contra hcon
                    push_neg at hcon
                    rw [hg2other q hcon.1 hcon.2] at h2q
                    exact h2q hqwall
                  rcases hqmn with rfl | rfl
                  · exact absurd (connP_mid pre.node hd)
                      (fun h => not_node_and_conn hqnode h)
                  · apply hNF
                    intro d' hd' hint
                    apply post2.frontier d' ((hsh g2 n).mem_iff.mpr hd')
                    rw [interiorPos, hg3h, hg3w] at hint
                    exact hint
            reach := by
              intro q hqwall hqopen
              by_cases h3q : g3.cell q = Cell.wall
              · exact post3.reach q h3q hqopen
              · by_cases h2q : g2.cell q = Cell.wall
                · have hr : reachable g3 n q := post2.reach q h2q h3q
                  have hr' : reachable gF n q := by
                    apply reachable_mono post3.hheight post3.hwidth ?_ hr
                    intro x hx
                    exact hnonwall_34 x hx
                  exact reachable_trans r_pn hr'
                · have hqmn : q = mid ∨ q = n := by
                    by_contra hcon
                    push_neg at hcon
                    rw [hg2other q hcon.1 hcon.2] at h2q
                    exact h2q hqwall
                  rcases hqmn with rfl | rfl
                  · exact r_pm
                  · exact r_pn }

/-- Once every open node has its interior two-step neighbourhood open and
(1,1) is open, every interior node is open: walk from (1,1) by two-step
moves. -/
theorem all_nodes_open (G : Grid) (h11 : G.cell (1, 1) ≠ Cell.wall)
    (hdone : ∀ q : Pos, nodeP q → interiorPos G q → G.cell q ≠ Cell.wall →
      NbrsOpen G q) :
    ∀ q : Pos, nodeP q → interiorPos G q → G.cell q ≠ Cell.wall := by
  have main : ∀ (k : ℕ) (q : Pos), (q.1 + q.2).toNat = k → nodeP q →
      interiorPos G q → G.cell q ≠ Cell.wall := by
    intro k
    induction k using Nat.strong_induction_on with
    | _ k ihk =>
      intro q hk hnode hint
      obtain ⟨a, b⟩ := q
      obtain ⟨ha, hb⟩ := hnode
      obtain ⟨h1, h2, h3, h4⟩ := hint
      simp only at ha hb h1 h2 h3 h4 hk
      by_cases hq1 : a = 1 ∧ b = 1
      · obtain ⟨rfl, rfl⟩ := hq1
        exact h11
      · have hcase : 3 ≤ a ∨ 3 ≤ b := by omega
        rcases hcase with hca | hcb
        · have hq' : nodeP ((a - 2 : ℤ), b) := ⟨by dsimp only; omega, hb⟩
          have hint' : interiorPos G ((a - 2 : ℤ), b) := by
            refine ⟨?_, ?_, ?_, ?_⟩ <;> dsimp only <;> omega
          have hlt : (((a - 2 : ℤ), b).1 + ((a - 2 : ℤ), b).2).toNat < k := by
            dsimp only; omega
          have hopen' := ihk _ hlt ((a - 2 : ℤ), b) rfl hq' hint'
          have hnb := hdone ((a - 2 : ℤ), b) hq' hint' hopen'
          have hintq : interiorPos G ((a : ℤ) - 2 + 2, (b : ℤ) + 0) := by
            refine ⟨?_, ?_, ?_, ?_⟩ <;> dsimp only <;> omega
          have h5 : G.cell ((a : ℤ) - 2 + 2, (b : ℤ) + 0) ≠ Cell.wall :=
            hnb (2, 0) (by simp [dirList]) hintq
          have he : (((a : ℤ) - 2 + 2, (b : ℤ) + 0) : Pos) = ((a, b) : Pos) := by
            rw [Prod.mk.injEq]
            omega
          rw [he] at h5
          exact h5
        · have hq' : nodeP ((a : ℤ), b - 2) := ⟨ha, by dsimp only; omega⟩
          have hint' : interiorPos G ((a : ℤ), b - 2) := by
            refine ⟨?_, ?_, ?_, ?_⟩ <;> dsimp only <;> omega
          have hlt : (((a : ℤ), b - 2).1 + ((a : ℤ), b - 2).2).toNat < k := by
            dsimp only; omega
          have hopen' := ihk _ hlt ((a : ℤ), b - 2) rfl hq' hint'
          have hnb := hdone ((a : ℤ), b - 2) hq' hint' hopen'
          have hintq : interiorPos G ((a : ℤ) + 0, (b : ℤ) - 2 + 2) := by
            refine ⟨?_, ?_, ?_, ?_⟩ <;> dsimp only <;> omega
          have h5 : G.cell ((a : ℤ) + 0, (b : ℤ) - 2 + 2) ≠ Cell.wall :=
            hnb (0, 2) (by simp [dirList]) hintq
          have he : (((a : ℤ) + 0, (b : ℤ) - 2 + 2) : Pos) = ((a, b) : Pos) := by
            rw [Prod.mk.injEq]
            omega
          rw [he] at h5
          exact h5
  intro q hnode hint
  exact main (q.1 + q.2).toNat q rfl hnode hint

/-! ## Setup-level lemmas -/

theorem adjSize_props (size : ℤ) (h1 : 10 ≤ size) (h2 : size ≤ 50) :
    adjSize size % 2 = 1 ∧ 11 ≤ adjSize size ∧ adjSize size ≤ 51 := by
  rw [adjSize]
  split_ifs with h <;> omega

/-- With no even/even cell open, the open cells split into nodes and
connectors. -/
theorem openCount_partition (G : Grid) (hinv : NoEvenEven G) :
    openCount G = nodeCount G + connCount G := by
  rw [openCount, nodeCount, connCount]
  have hsplit : Finset.filter (fun p => G.cell p ≠ Cell.wall) (gridCells G) =
      Finset.filter (fun p => G.cell p ≠ Cell.wall ∧ nodeP p) (gridCells G) ∪
      Finset.filter (fun p => G.cell p ≠ Cell.wall ∧ connP p) (gridCells G) := by
    ext q
    simp only [Finset.mem_filter, Finset.mem_union]
    constructor
    · intro ⟨hmem, hnw⟩
      have hmod1 : q.1 % 2 = 0 ∨ q.1 % 2 = 1 := by omega
      have hmod2 : q.2 % 2 = 0 ∨ q.2 % 2 = 1 := by omega
      rcases hmod1 with hm1 | hm1 <;> rcases hmod2 with hm2 | hm2
      · exact absurd (hinv q hm1 hm2) hnw
      · exact Or.inr ⟨hmem, hnw, Or.inr ⟨hm1, hm2⟩⟩
      · exact Or.inr ⟨hmem, hnw, Or.inl ⟨hm1, hm2⟩⟩
      · exact Or.inl ⟨hmem, hnw, hm1, hm2⟩
    · rintro (⟨hmem, hnw, _⟩ | ⟨hmem, hnw, _⟩) <;> exact ⟨hmem, hnw⟩
  rw [hsplit]
  apply Finset.card_union_of_disjoint
  rw [Finset.disjoint_left]
  intro q hq1 hq2
  rw [Finset.mem_filter] at hq1 hq2
  exact not_node_and_conn hq1.2.2 hq2.2.2

/-- The three counts only depend on which cells are `Wall`. -/
theorem counts_wall_congr {g g' : Grid} (hh : g'.height = g.height)
    (hw : g'.width = g.width)
    (hc : ∀ q : Pos, g'.cell q = Cell.wall ↔ g.cell q = Cell.wall) :
    openCount g' = openCount g ∧ nodeCount g' = nodeCount g ∧
      connCount g' = connCount g := by
  have hcells : gridCells g' = gridCells g := by
    rw [gridCells, gridCells, hh, hw]
  refine ⟨?_, ?_, ?_⟩
  · rw [openCount, openCount, hcells]
    congr 1
    ext q
    simp only [Finset.mem_filter, ne_eq, hc q]
  · rw [nodeCount, nodeCount, hcells]
    congr 1
    ext q
    simp only [Finset.mem_filter, ne_eq, hc q]
  · rw [connCount, connCount, hcells]
    congr 1
    ext q
    simp only [Finset.mem_filter, ne_eq, hc q]

theorem card_filter_eq_one {G : Grid} {P : Pos → Prop} [DecidablePred P]
    {x : Pos} (hx : x ∈ gridCells G) (hPx : P x)
    (huniq : ∀ q : Pos, P q → q = x) :
    (Finset.filter (fun p => P p) (gridCells G)).card = 1 := by
  rw [Finset.card_eq_one]
  refine ⟨x, ?_⟩
  rw [Finset.eq_singleton_iff_unique_mem]
  constructor
  · rw [Finset.mem_filter]; exact ⟨hx, hPx⟩
  · intro q hq
    rw [Finset.mem_filter] at hq
    exact huniq q hq.2

/-- The master correctness statement for `setup_maze`: boundary, unique
start/end markers, full connectivity and the spanning-tree count identity,
for every validated size and every shuffle oracle outcome. -/
theorem setup_maze_spec (shuffle : Grid → Pos → List Pos)
    (hsh : ShuffleOK shuffle) (size : ℤ) (h1 : 10 ≤ size) (h2 : size ≤ 50) :
    SetupSpec (setup_maze shuffle size) (adjSize size) := by
  obtain ⟨hodd, hge, hle⟩ := adjSize_props size h1 h2
  set n := adjSize size with hnn
  set g0 : Grid := { height := n, width := n, cell := fun _ => Cell.wall }
    with hg0
  set g1 : Grid := g0.set (1, 1) Cell.path with hg1
  set ds0 : List Pos := shuffle g1 (1, 1) with hds0
  set G1 : Grid := carveAux shuffle (5 * n * n).toNat g1 (1, 1) ds0 with hG1
  have hsetup : setup_maze shuffle size =
      (G1.set (1, 1) Cell.start).set (n - 2, n - 2) Cell.finish := rfl
  have hg1_11 : g1.cell (1, 1) = Cell.path := by
    rw [hg1]; exact Grid.cell_set_same _ _ _
  have hg1_other : ∀ q : Pos, q ≠ (1, 1) → g1.cell q = Cell.wall := by
    intro q hq
    rw [hg1, Grid.cell_set_other _ Cell.path hq]
  have hg1h : g1.height = n := rfl
  have hg1w : g1.width = n := rfl
  have hpre : CarvePre (5 * n * n).toNat g1 (1, 1) ds0 := by
    refine { bw := ?_, inv1 := ?_, inv2 := ?_, node := ?_, pint := ?_,
             popen := ?_, fuelok := ?_, dsok := ?_ }
    · intro q
      by_cases hq : q = (1, 1)
      · right; rw [hq]; exact hg1_11
      · left; exact hg1_other q hq
    · intro q hq1 hq2
      apply hg1_other
      intro hq
      rw [hq] at hq1
      simp at hq1
    · constructor
      · intro m hm1 hm2 hmw
        exfalso
        apply hmw
        apply hg1_other
        intro hq
        rw [hq] at hm1
        simp at hm1
      · intro m hm1 hm2 hmw
        exfalso
        apply hmw
        apply hg1_other
        intro hq
        rw [hq] at hm2
        simp at hm2
    · exact ⟨by decide, by decide⟩
    · exact ⟨by show (0 : ℤ) < 1; norm_num,
        by show (1 : ℤ) < n - 1; omega,
        by show (0 : ℤ) < 1; norm_num,
        by show (1 : ℤ) < n - 1; omega⟩
    · rw [hg1_11]; exact fun h => Cell.noConfusion h
    · have hlen : ds0.length = 4 := by
        rw [hds0]
        have := (hsh g1 (1, 1)).length_eq
        simpa [dirList] using this
      have hcard : interiorWallCount g1 ≤ (n - 2).toNat * (n - 2).toNat := by
        have hc1 : interiorWallCount g1 ≤
            ((Finset.Icc (1 : ℤ) (n - 2)) ×ˢ
              (Finset.Icc (1 : ℤ) (n - 2))).card :=
          Finset.card_filter_le _ _
        calc interiorWallCount g1 ≤ _ := hc1
        _ = (n - 2 + 1 - 1).toNat * (n - 2 + 1 - 1).toNat := by
            rw [Finset.card_product, Int.card_Icc]
        _ = (n - 2).toNat * (n - 2).toNat := by norm_num
      rw [hlen, Int.le_toNat (by positivity)]
      push_cast
      have hWz : ((interiorWallCount g1 : ℕ) : ℤ) ≤ (n - 2) * (n - 2) := by
        have hc2 : ((interiorWallCount g1 : ℕ) : ℤ) ≤
            (((n - 2).toNat * (n - 2).toNat : ℕ) : ℤ) := by
          exact_mod_cast hcard
        have hc3 : (((n - 2).toNat : ℕ) : ℤ) = n - 2 :=
          Int.toNat_of_nonneg (by omega)
        rw [Nat.cast_mul, hc3] at hc2
        exact hc2
      nlinarith [hWz, hge]
    · intro d hd
      rw [hds0] at hd
      exact (hsh g1 (1, 1)).mem_iff.mp hd
  have post := carveAux_spec shuffle hsh (5 * n * n).toNat g1 (1, 1) ds0 hpre
  rw [← hG1] at post
  have hG1h : G1.height = n := post.hheight
  have hG1w : G1.width = n := post.hwidth
  have hG1bw : ∀ q : Pos, G1.cell q = Cell.wall ∨ G1.cell q = Cell.path := by
    intro q
    rcases post.evol q with he | he
    · rw [he]
      by_cases hq : q = (1, 1)
      · right; rw [hq]; exact hg1_11
      · left; exact hg1_other q hq
    · right; exact he.1
  have hG1_11 : G1.cell (1, 1) ≠ Cell.wall := by
    rcases post.evol (1, 1) with he | he
    · rw [he, hg1_11]; exact fun h => Cell.noConfusion h
    · rw [he.1]; exact fun h => Cell.noConfusion h
  have hG1reach : ∀ q : Pos, G1.cell q ≠ Cell.wall → reachable G1 (1, 1) q := by
    intro q hq
    by_cases hq1 : q = (1, 1)
    · rw [hq1]; exact reachable.refl
    · exact post.reach q (hg1_other q hq1) hq
  have hG1done : ∀ q : Pos, nodeP q → interiorPos G1 q →
      G1.cell q ≠ Cell.wall → NbrsOpen G1 q := by
    intro q hnode hint hq
    by_cases hq1 : q = (1, 1)
    · subst hq1
      intro d hd hintd
      apply post.frontier d (by rw [hds0]; exact (hsh g1 (1, 1)).mem_iff.mpr hd)
      have hintd' := hintd
      rw [interiorPos, hG1h, hG1w] at hintd'
      exact hintd'
    · exact post.hered q hnode (hg1_other q hq1) hq
  have hG1nodes : ∀ q : Pos, nodeP q → interiorPos G1 q →
      G1.cell q ≠ Cell.wall :=
    all_nodes_open G1 hG1_11 hG1done
  have hstart_int : interiorPos G1 (1, 1) := by
    rw [interiorPos, hG1h, hG1w]
    exact ⟨by show (0 : ℤ) < 1; norm_num,
      by show (1 : ℤ) < n - 1; omega,
      by show (0 : ℤ) < 1; norm_num,
      by show (1 : ℤ) < n - 1; omega⟩
  have hfinish_int : interiorPos G1 (n - 2, n - 2) := by
    rw [interiorPos, hG1h, hG1w]
    refine ⟨?_, ?_, ?_, ?_⟩ <;> dsimp only <;> omega
  have hG1outside : ∀ q : Pos, ¬ interiorPos G1 q → G1.cell q = Cell.wall := by
    intro q hq
    have hqne : q ≠ (1, 1) := by
      intro hq1
      rw [hq1] at hq
      exact hq hstart_int
    have hg1int : ¬ interiorPos g1 q := by
      intro hgq
      apply hq
      rw [interiorPos, hG1h, hG1w]
      exact hgq
    rw [post.outside q hg1int]
    exact hg1_other q hqne
  have hn1 : nodeCount g1 = 1 := by
    rw [nodeCount]
    have hmem11 : ((1, 1) : Pos) ∈ gridCells g1 :=
      mem_gridCells.mpr ⟨by show (0 : ℤ) ≤ 1; norm_num,
        by show (1 : ℤ) ≤ n - 1; omega,
        by show (0 : ℤ) ≤ 1; norm_num,
        by show (1 : ℤ) ≤ n - 1; omega⟩
    apply card_filter_eq_one hmem11
    · constructor
      · rw [hg1_11]; exact fun h => Cell.noConfusion h
      · exact ⟨by decide, by decide⟩
    · intro q hq
      by_contra hne
      exact hq.1 (hg1_other q hne)
  have hc0 : connCount g1 = 0 := by
    rw [connCount, Finset.card_eq_zero]
    ext q
    simp only [Finset.mem_filter, Finset.not_mem_empty, iff_false]
    rintro ⟨hmem, hnw, hconn⟩
    by_cases hq : q = (1, 1)
    · rw [hq] at hconn
      exact not_node_and_conn ⟨by decide, by decide⟩ hconn
    · exact hnw (hg1_other q hq)
  have hG1counts : nodeCount G1 = connCount G1 + 1 := by
    have hb := post.balance
    rw [hn1, hc0] at hb
    omega
  have hG1part : openCount G1 = nodeCount G1 + connCount G1 :=
    openCount_partition G1 post.inv1
  have hfinish_node : nodeP (n - 2, n - 2) :=
    ⟨by dsimp only; omega, by dsimp only; omega⟩
  have hG1fin_open : G1.cell (n - 2, n - 2) ≠ Cell.wall :=
    hG1nodes _ hfinish_node hfinish_int
  rw [hsetup]
  set G : Grid := (G1.set (1, 1) Cell.start).set (n - 2, n - 2) Cell.finish
    with hGdef
  have hne12 : ((1, 1) : Pos) ≠ (n - 2, n - 2) := by
    intro h
    rw [Prod.mk.injEq] at h
    omega
  have hGstart : G.cell (1, 1) = Cell.start := by
    rw [hGdef, Grid.cell_set_other _ Cell.finish hne12]
    exact Grid.cell_set_same _ _ _
  have hGfinish : G.cell (n - 2, n - 2) = Cell.finish := by
    rw [hGdef]
    exact Grid.cell_set_same _ _ _
  have hGother : ∀ q : Pos, q ≠ (1, 1) → q ≠ (n - 2, n - 2) →
      G.cell q = G1.cell q := by
    intro q hq1 hq2
    rw [hGdef, Grid.cell_set_other _ Cell.finish hq2,
      Grid.cell_set_other _ Cell.start hq1]
  have hGh : G.height = n := hG1h
  have hGw : G.width = n := hG1w
  have hwallcong : ∀ q : Pos, G.cell q = Cell.wall ↔ G1.cell q = Cell.wall := by
    intro q
    by_cases hq1 : q = (1, 1)
    · rw [hq1, hGstart]
      constructor
      · intro h; exact absurd h (fun hh => Cell.noConfusion hh)
      · intro h; exact absurd h hG1_11
    · by_cases hq2 : q = (n - 2, n - 2)
      · rw [hq2, hGfinish]
        constructor
        · intro h; exact absurd h (fun hh => Cell.noConfusion hh)
        · intro h; exact absurd h hG1fin_open
      · rw [hGother q hq1 hq2]
  have hcounts := @counts_wall_congr G1 G rfl rfl hwallcong
  have honlyS : ∀ q : Pos, G.cell q = Cell.start → q = (1, 1) := by
    intro q hq
    by_cases hqa : q = (1, 1)
    · exact hqa
    by_cases hqb : q = (n - 2, n - 2)
    · rw [hqb, hGfinish] at hq
      exact absurd hq (fun h => Cell.noConfusion h)
    · rw [hGother q hqa hqb] at hq
      rcases hG1bw q with hb | hb <;> rw [hb] at hq <;>
        exact absurd hq (fun h => Cell.noConfusion h)
  have honlyF : ∀ q : Pos, G.cell q = Cell.finish → q = (n - 2, n - 2) := by
    intro q hq
    by_cases hqb : q = (n - 2, n - 2)
    · exact hqb
    by_cases hqa : q = (1, 1)
    · rw [hqa, hGstart] at hq
      exact absurd hq (fun h => Cell.noConfusion h)
    · rw [hGother q hqa hqb] at hq
      rcases hG1bw q with hb | hb <;> rw [hb] at hq <;>
        exact absurd hq (fun h => Cell.noConfusion h)
  exact
    { hheight := hGh
      hwidth := hGw
      startAt := hGstart
      finishAt := hGfinish
      onlyStart := honlyS
      onlyFinish := honlyF
      boundaryWall := by
        intro q hq
        have hq1 : ¬ interiorPos G1 q := hq
        have hqa : q ≠ (1, 1) := fun h => hq1 (h ▸ hstart_int)
        have hqb : q ≠ (n - 2, n - 2) := fun h => hq1 (h ▸ hfinish_int)
        rw [hGother q hqa hqb]
        exact hG1outside q hq1
      connected := by
        intro q hq
        have hq1 : G1.cell q ≠ Cell.wall := fun h => hq ((hwallcong q).mpr h)
        exact @reachable_wall_congr G1 G rfl rfl
          (fun x => (hwallcong x).symm) (1, 1) q (hG1reach q hq1)
      noWallReach := by
        intro q hr
        apply reachable_no_wall ?_ hr
        rw [hGstart]
        exact fun h => Cell.noConfusion h
      nodesOpen := by
        intro q hnode hint
        have hint1 : interiorPos G1 q := hint
        have hop := hG1nodes q hnode hint1
        intro hw
        exact hop ((hwallcong q).mp hw)
      treeCount := by
        rw [hcounts.2.1, hcounts.2.2]
        exact hG1counts
      partition := by
        rw [hcounts.1, hcounts.2.1, hcounts.2.2]
        exact hG1part
      startCount1 := by
        rw [startCount]
        apply card_filter_eq_one ?_ hGstart honlyS
        apply mem_gridCells.mpr
        refine ⟨by show (0 : ℤ) ≤ 1; norm_num, ?_,
          by show (0 : ℤ) ≤ 1; norm_num, ?_⟩
        · show (1 : ℤ) ≤ G.height - 1
          rw [hGh]; omega
        · show (1 : ℤ) ≤ G.width - 1
          rw [hGw]; omega
      finishCount1 := by
        rw [finishCount]
        apply card_filter_eq_one ?_ hGfinish honlyF
        apply mem_gridCells.mpr
        refine ⟨?_, ?_, ?_, ?_⟩
        · show (0 : ℤ) ≤ n - 2
          omega
        · show n - 2 ≤ G.height - 1
          rw [hGh]; omega
        · show (0 : ℤ) ≤ n - 2
          omega
        · show n - 2 ≤ G.width - 1
          rw [hGw]; omega }

theorem constShuffle_ok : ShuffleOK constShuffle :=
  fun _ _ => List.Perm.refl _

/-! ## Claim C1 -/

/-- C1: for every requested size in [10,50] and every shuffle-oracle
outcome, the built grid is fully connected: every in-bounds non-`Wall` cell
(`Open`, `Start` at (1,1), `End`) is reachable from (1,1) via cardinal moves
through non-`Wall` cells, and nothing reachable is a `Wall` cell. -/
theorem C1_connectivity (shuffle : Grid → Pos → List Pos) (size : ℤ)
    (hsh : ShuffleOK shuffle) (h1 : 10 ≤ size) (h2 : size ≤ 50) :
    (setup_maze shuffle size).cell (1, 1) = Cell.start ∧
    (∀ q : Pos, inBoundsPos (setup_maze shuffle size) q →
      (setup_maze shuffle size).cell q ≠ Cell.wall →
      reachable (setup_maze shuffle size) (1, 1) q) ∧
    (∀ q : Pos, reachable (setup_maze shuffle size) (1, 1) q →
      (setup_maze shuffle size).cell q ≠ Cell.wall) := by
  have spec := setup_maze_spec shuffle hsh size h1 h2
  exact ⟨spec.startAt, fun q _ hq => spec.connected q hq, spec.noWallReach⟩

/-- Witness for C1: the identity shuffle at size 10. -/
theorem C1_connectivity_witness :
    ShuffleOK constShuffle ∧ ((10 : ℤ) ≤ 10 ∧ (10 : ℤ) ≤ 50) ∧
    ((setup_maze constShuffle 10).cell (1, 1) = Cell.start ∧
     (∀ q : Pos, inBoundsPos (setup_maze constShuffle 10) q →
       (setup_maze constShuffle 10).cell q ≠ Cell.wall →
       reachable (setup_maze constShuffle 10) (1, 1) q) ∧
     (∀ q : Pos, reachable (setup_maze constShuffle 10) (1, 1) q →
       (setup_maze constShuffle 10).cell q ≠ Cell.wall)) :=
  ⟨constShuffle_ok, ⟨by norm_num, by norm_num⟩,
    C1_connectivity constShuffle 10 constShuffle_ok (by norm_num) (by norm_num)⟩

/-! ## Claim C2 -/

set_option maxRecDepth 4000 in
/-- C2 counterexample: for the generated 11×11 maze (size request 10,
identity shuffle), the number of open cells minus 1 does not equal the
number of carved connecting cells (the open cells of connector parity):
open = 2·connectors + 1, and there is at least one connector. -/
theorem C2_counterexample :
    openCount (setup_maze constShuffle 10) - 1 ≠
      connCount (setup_maze constShuffle 10) := by
  have spec := setup_maze_spec constShuffle constShuffle_ok 10
    (by norm_num) (by norm_num)
  have hadj : adjSize 10 = 11 := by norm_num [adjSize]
  have hpart := spec.partition
  have htree := spec.treeCount
  have hh10 : (setup_maze constShuffle 10).height = 11 := by
    rw [spec.hheight, hadj]
  have hw10 : (setup_maze constShuffle 10).width = 11 := by
    rw [spec.hwidth, hadj]
  have h11 : (setup_maze constShuffle 10).cell (1, 1) ≠ Cell.wall := by
    rw [spec.startAt]
    exact fun h => Cell.noConfusion h
  have h13 : (setup_maze constShuffle 10).cell (1, 3) ≠ Cell.wall := by
    apply spec.nodesOpen (1, 3) (by decide)
    rw [interiorPos, hh10, hw10]
    refine ⟨?_, ?_, ?_, ?_⟩ <;> norm_num
  have hmem1 : ((1, 1) : Pos) ∈ gridCells (setup_maze constShuffle 10) := by
    rw [mem_gridCells, hh10, hw10]
    refine ⟨?_, ?_, ?_, ?_⟩ <;> norm_num
  have hmem3 : ((1, 3) : Pos) ∈ gridCells (setup_maze constShuffle 10) := by
    rw [mem_gridCells, hh10, hw10]
    refine ⟨?_, ?_, ?_, ?_⟩ <;> norm_num
  have hn2 : 1 < nodeCount (setup_maze constShuffle 10) := by
    rw [nodeCount]
    apply Finset.one_lt_card.mpr
    refine ⟨(1, 1), ?_, (1, 3), ?_, by decide⟩
    · rw [Finset.mem_filter]
      exact ⟨hmem1, h11, by decide, by decide⟩
    · rw [Finset.mem_filter]
      exact ⟨hmem3, h13, by decide, by decide⟩
  omega

/-- C2 (amended): for every generated grid and shuffle outcome, the number
of `Open`+`Start`+`End` cells minus 1 equals **twice** the number of carved
connecting cells (each connecting cell joins two node cells, so the open
grid is a spanning tree: no passage is ever opened twice, no cycle). -/
theorem C2_spanning_tree_count (shuffle : Grid → Pos → List Pos) (size : ℤ)
    (hsh : ShuffleOK shuffle) (h1 : 10 ≤ size) (h2 : size ≤ 50) :
    openCount (setup_maze shuffle size) =
      2 * connCount (setup_maze shuffle size) + 1 ∧
    openCount (setup_maze shuffle size) - 1 =
      2 * connCount (setup_maze shuffle size) := by
  have spec := setup_maze_spec shuffle hsh size h1 h2
  have hpart := spec.partition
  have htree := spec.treeCount
  omega

/-- Witness for C2 (amended): the identity shuffle at size 10. -/
theorem C2_spanning_tree_count_witness :
    ShuffleOK constShuffle ∧ ((10 : ℤ) ≤ 10 ∧ (10 : ℤ) ≤ 50) ∧
    (openCount (setup_maze constShuffle 10) =
      2 * connCount (setup_maze constShuffle 10) + 1 ∧
     openCount (setup_maze constShuffle 10) - 1 =
      2 * connCount (setup_maze constShuffle 10)) :=
  ⟨constShuffle_ok, ⟨by norm_num, by norm_num⟩,
    C2_spanning_tree_count constShuffle 10 constShuffle_ok
      (by norm_num) (by norm_num)⟩

/-! ## Claim C3 -/

/-- C3: for every generated grid of effective odd size N = adjSize size,
every cell on row 0, row N−1, column 0, or column N−1 is `Wall`; carving
(under any shuffle outcome, permutation or not) never writes a boundary
cell. -/
theorem C3_boundary_walls (shuffle : Grid → Pos → List Pos) (size : ℤ)
    (h1 : 10 ≤ size) (h2 : size ≤ 50) :
    ∀ q : Pos,
      (q.1 = 0 ∨ q.1 = adjSize size - 1 ∨ q.2 = 0 ∨
        q.2 = adjSize size - 1) →
      (setup_maze shuffle size).cell q = Cell.wall := by
  obtain ⟨hodd, hge, hle⟩ := adjSize_props size h1 h2
  intro q hq
  set n := adjSize size with hnn
  set g0 : Grid := { height := n, width := n, cell := fun _ => Cell.wall }
    with hg0
  set g1 : Grid := g0.set (1, 1) Cell.path with hg1
  set ds0 : List Pos := shuffle g1 (1, 1) with hds0
  set G1 : Grid := carveAux shuffle (5 * n * n).toNat g1 (1, 1) ds0 with hG1
  have hsetup : setup_maze shuffle size =
      (G1.set (1, 1) Cell.start).set (n - 2, n - 2) Cell.finish := rfl
  have hint11 : interiorPos g1 (1, 1) :=
    ⟨by show (0 : ℤ) < 1; norm_num, by show (1 : ℤ) < n - 1; omega,
     by show (0 : ℤ) < 1; norm_num, by show (1 : ℤ) < n - 1; omega⟩
  have hqnint : ¬ interiorPos g1 q := by
    rintro ⟨ha, hb, hc, hd⟩
    have hbh : q.1 < n - 1 := hb
    have hbw : q.2 < n - 1 := hd
    omega
  have hq1 : q ≠ (1, 1) := fun h => hqnint (h ▸ hint11)
  have hq2 : q ≠ (n - 2, n - 2) := by
    intro h
    apply hqnint
    rw [h]
    exact ⟨by show (0 : ℤ) < n - 2; omega, by show n - 2 < n - 1; omega,
      by show (0 : ℤ) < n - 2; omega, by show n - 2 < n - 1; omega⟩
  rw [hsetup, Grid.cell_set_other _ Cell.finish hq2,
    Grid.cell_set_other _ Cell.start hq1, hG1,
    carveAux_outside shuffle (5 * n * n).toNat g1 (1, 1) ds0 q hint11 hqnint,
    hg1, Grid.cell_set_other _ Cell.path hq1]

/-- Witness for C3: the top-left boundary cell (0,5) at size 10. -/
theorem C3_boundary_walls_witness :
    ((10 : ℤ) ≤ 10 ∧ (10 : ℤ) ≤ 50) ∧
    (((0 : ℤ), (5 : ℤ)).1 = 0 ∨ ((0 : ℤ), (5 : ℤ)).1 = adjSize 10 - 1 ∨
      ((0 : ℤ), (5 : ℤ)).2 = 0 ∨ ((0 : ℤ), (5 : ℤ)).2 = adjSize 10 - 1) ∧
    (setup_maze constShuffle 10).cell (0, 5) = Cell.wall :=
  ⟨⟨by norm_num, by norm_num⟩, Or.inl rfl,
    C3_boundary_walls constShuffle 10 (by norm_num) (by norm_num) (0, 5)
      (Or.inl rfl)⟩

/-! ## Claim C4 -/

/-- C4: the builder promotes an even size to the next odd value (the
effective size is odd, between the request and the request plus one), and
the grid holds exactly one `Start`, at (1,1), and exactly one `End`, at
(height−2, width−2). -/
theorem C4_size_and_markers (shuffle : Grid → Pos → List Pos) (size : ℤ)
    (hsh : ShuffleOK shuffle) (h1 : 10 ≤ size) (h2 : size ≤ 50) :
    (setup_maze shuffle size).height = adjSize size ∧
    (setup_maze shuffle size).width = adjSize size ∧
    adjSize size % 2 = 1 ∧ size ≤ adjSize size ∧ adjSize size ≤ size + 1 ∧
    startCount (setup_maze shuffle size) = 1 ∧
    (setup_maze shuffle size).cell (1, 1) = Cell.start ∧
    finishCount (setup_maze shuffle size) = 1 ∧
    (setup_maze shuffle size).cell
      (adjSize size - 2, adjSize size - 2) = Cell.finish := by
  have spec := setup_maze_spec shuffle hsh size h1 h2
  have hadj : size ≤ adjSize size ∧ adjSize size ≤ size + 1 := by
    rw [adjSize]
    split_ifs <;> omega
  exact ⟨spec.hheight, spec.hwidth, (adjSize_props size h1 h2).1, hadj.1,
    hadj.2, spec.startCount1, spec.startAt, spec.finishCount1, spec.finishAt⟩

/-- Witness for C4: size request 10 gives an 11×11 grid with Start=(1,1)
and End=(9,9). -/
theorem C4_size_and_markers_witness :
    ShuffleOK constShuffle ∧ ((10 : ℤ) ≤ 10 ∧ (10 : ℤ) ≤ 50) ∧
    adjSize 10 = 11 ∧
    ((setup_maze constShuffle 10).height = adjSize 10 ∧
     (setup_maze constShuffle 10).width = adjSize 10 ∧
     adjSize 10 % 2 = 1 ∧ (10 : ℤ) ≤ adjSize 10 ∧ adjSize 10 ≤ 10 + 1 ∧
     startCount (setup_maze constShuffle 10) = 1 ∧
     (setup_maze constShuffle 10).cell (1, 1) = Cell.start ∧
     finishCount (setup_maze constShuffle 10) = 1 ∧
     (setup_maze constShuffle 10).cell
       (adjSize 10 - 2, adjSize 10 - 2) = Cell.finish) :=
  ⟨constShuffle_ok, ⟨by norm_num, by norm_num⟩, by norm_num [adjSize],
    C4_size_and_markers constShuffle 10 constShuffle_ok
      (by norm_num) (by norm_num)⟩
